import Mathlib

/-!
processor1: the emulator core of `src/emu/emu.cpp`.

A shallow embedding of the byte-code interpreter: the `World` record, the
addressed-word accessors, the stack, the interrupt controller, the five
instruction handler groups and the dispatcher loop.

Conventions of the embedding.

* `RegType` (`unsigned long long`) is a natural number below `2 ^ 64`; every
  operation that can leave that range is reduced modulo `WORD`.
* `ByteType` (`unsigned char`) is a natural number below `256`.
* `RegTypeS` (`signed long long`) is an integer, obtained with `toSigned`
  (two's complement) and stored back with `ofSigned` (modulo `WORD`).
* The buffer `mem` is a list of bytes and `mem_size` is its length.  The source
  indexes the buffer without any check; the embedding checks every index and
  turns an index outside the buffer into `Fault.outOfRange`.
* Integer division by zero, and the signed division `-2^63 / -1`, which C++
  leaves undefined and the processor traps, are `Fault.divideByZero` and
  `Fault.divideOverflow`.  Signed `+`, `-`, `*` wrap modulo `WORD`.
* A shift `<<=` or `>>=` by 64 or more is undefined in C++; the embedding
  takes the mathematical shift (the result is 0).  No theorem below depends
  on the value of such a shift.
* `World::error` prints and calls `exit(1)`; here it is `Fault.error`, which
  records the value of `PC` that is printed and the message.
* `std::cout` is the list `cout` of the bytes written so far.
-/

namespace Emu

/-- Modulus of `RegType` arithmetic. -/
abbrev WORD : Nat := 2 ^ 64

/-- The cast `(RegTypeS)x`. -/
def toSigned (x : Nat) : Int :=
  if x % WORD < 2 ^ 63 then ((x % WORD : Nat) : Int) else ((x % WORD : Nat) : Int) - (WORD : Int)

/-- Storing a `RegTypeS` into a `RegType`. -/
def ofSigned (i : Int) : Nat := (i % (WORD : Int)).toNat

/-- The operator `~` on `RegType`. -/
def bitNot (x : Nat) : Nat := (WORD - 1) ^^^ (x % WORD)

/-! ## Constants -/

abbrev AllMask : Nat := 0xF0
abbrev OneMask : Nat := 0xF0
abbrev TwoMask : Nat := 0x80
abbrev FourMask : Nat := 0xC0
abbrev ImmMask : Nat := 0xE0

/-- The values of `enum OpType`. -/
def opcodes : List Nat :=
  [0xF1, 0xF2, 0xF3, 0xF4,
   0x81, 0x82, 0x83, 0x84, 0x85, 0x86, 0x87, 0x88, 0x89, 0x8A, 0x8B,
   0x01, 0x02, 0x03, 0x04, 0x05, 0x06, 0x07, 0x08, 0x09, 0x0A, 0x0B, 0x0C,
   0x0D, 0x0E, 0x0F, 0x10, 0x11, 0x12,
   0xC1, 0xC2, 0xC3, 0xC4, 0xC5, 0xC6, 0xC7,
   0xE1]

/-- `enum CRStates`. -/
abbrev CRLessThan : Nat := 2 ^ 63
abbrev CRGreaterThan : Nat := 2 ^ 62
abbrev CREqual : Nat := 2 ^ 61
abbrev Overflow : Nat := 2 ^ 61

/-! ## Machine state -/

/-- The ways a run stops abnormally. -/
inductive Fault where
  /-- `World::error(message)`: the report names the current `PC`. -/
  | error (PC : Nat) (message : String)
  /-- An index outside the buffer (unchecked in the source). -/
  | outOfRange (addr : Nat)
  /-- Integer division by zero in `D` / `DU`. -/
  | divideByZero
  /-- The signed division `-2^63 / -1` in `D`, whose quotient is no `RegTypeS`. -/
  | divideOverflow
  deriving DecidableEq, Repr

deriving instance DecidableEq for Except

/-- `class World`. -/
structure World where
  mem : List Nat
  stack_size : Nat
  interrupts : Bool
  registers : Nat → Nat
  PC : Nat
  SP : Nat
  IP : Nat
  CR : Nat
  /-- Bytes written to `std::cout`. -/
  cout : List Nat

namespace World

/-- The field `mem_size`: the length of the buffer allocated by `genMem`. -/
def mem_size (w : World) : Nat := w.mem.length

/-- Assignment `registers[r] = v`. -/
def setReg (w : World) (r : Nat) (v : Nat) : World :=
  { w with registers := fun i => if i = r then v else w.registers i }

/-- Read of `mem[addr]`. -/
def readMem (w : World) (addr : Nat) : Except Fault Nat :=
  match w.mem[addr]? with
  | some b => .ok b
  | none => .error (.outOfRange addr)

/-- Assignment `mem[addr] = b`. -/
def writeMem (w : World) (addr : Nat) (b : Nat) : Except Fault World :=
  if addr < w.mem.length then .ok { w with mem := w.mem.set addr b }
  else .error (.outOfRange addr)

/-- Text sent to `std::cout`, as bytes. -/
def print (w : World) (s : String) : World :=
  { w with cout := w.cout ++ s.toList.map Char.toNat }

/-- `World::World(size)` followed by `genMem(size)`; the buffer and the
register file, which the source leaves uninitialised, start zeroed. -/
def new (size : Nat) : World :=
  { mem := List.replicate size 0, stack_size := 0, interrupts := true,
    registers := fun _ => 0, PC := 0, SP := 0, IP := 0, CR := 0, cout := [] }

/-- `World::setupStack`. -/
def setupStack (w : World) (size : Nat) : World :=
  { w with stack_size := size, SP := (w.mem_size + WORD - 8) % WORD }

/-- `World::setupInterruptVector`. -/
def setupInterruptVector (w : World) (addr : Nat) : World :=
  if addr = 0 then
    let w := if w.SP = 0 then w.setupStack 1024 else w
    { w with IP := (w.SP + WORD - (8 * w.stack_size) % WORD) % WORD }
  else
    { w with IP := addr }

/-- `World::setAddress`: the loop `for (i = 0; i < 64/8; ++i)`
with body `mem[base + 64/8 - i] = (addr >> (i*8)) & 0xFF`. -/
def setAddress (w : World) (base addr : Nat) : Except Fault World :=
  (List.range 8).foldlM
    (fun w i => w.writeMem ((base + 8 - i) % WORD) ((addr >>> (i * 8)) &&& 0xFF)) w

/-- `World::getAddress`: the loop `for (i = 0; i < 64/8; ++i)`
with body `res |= mem[base + i]; res <<= 8`. -/
def getAddress (w : World) (base : Nat) : Except Fault Nat :=
  (List.range 8).foldlM
    (fun res i => do
      let b ← w.readMem ((base + i) % WORD)
      pure (((res ||| b) <<< 8) % WORD)) 0

/-- `World::push`. -/
def push (w : World) (val : Nat) : Except Fault World :=
  let w := { w with SP := (w.SP + WORD - 8) % WORD }
  w.setAddress w.SP val

/-- `World::pop`: the word read and the state with `SP` moved. -/
def pop (w : World) : Except Fault (Nat × World) := do
  let res ← w.getAddress w.SP
  pure (res, { w with SP := (w.SP + 8) % WORD })

/-- `World::setupInterrupt`. -/
def setupInterrupt (w : World) (num : Nat) (addr : Nat) : Except Fault World :=
  w.setAddress ((w.IP + (num % 256) * 8) % WORD) addr

/-- `World::getInterrupt`. -/
def getInterrupt (w : World) (num : Nat) : Except Fault Nat :=
  w.getAddress ((w.IP + (num % 256) * 8) % WORD)

/-- `World::error`. -/
def error {α : Type} (w : World) (message : String) : Except Fault α :=
  .error (.error w.PC message)

end World

/-! ## Instruction handlers -/

/-- `decodeOne`. -/
def decodeOne (w : World) (op : Nat) : Except Fault World :=
  let w := w.print ("OP " ++ toString op ++ "\n")
  let w := { w with PC := (w.PC + 1) % WORD }
  match op with
  | 0xF1 => pure w
  | 0xF2 => do
      let (res, w) ← w.pop
      pure { w with PC := res }
  | 0xF3 => pure { w with interrupts := false }
  | 0xF4 => pure { w with interrupts := true }
  | _ => w.error ("1: Unknown instruction: " ++ toString op)

/-- `runInterrupt`. -/
def runInterrupt (w : World) (intnum : Nat) : Except Fault World :=
  if intnum = 1 then
    match w.registers 0 with
    | 1 => pure { w with cout := w.cout ++ [(w.registers 1 &&& 0xFF) % 256] }
    | _ => w.error ("Invalid interrupt command at INT 0x1: " ++ toString (w.registers 0))
  else do
    let w ← w.push w.PC
    let pc ← w.getInterrupt intnum
    pure { w with PC := pc }

/-- `decodeTwo`. -/
def decodeTwo (w : World) (op : Nat) : Except Fault World := do
  let reg1 ← w.readMem ((w.PC + 1) % WORD)
  let w := { w with PC := (w.PC + 2) % WORD }
  match op with
  | 0x81 => runInterrupt w reg1
  | 0x82 => pure (w.setReg reg1 w.PC)
  | 0x83 => pure (w.setReg reg1 w.SP)
  | 0x84 => pure (w.setReg reg1 w.IP)
  | 0x85 => pure (w.setReg reg1 w.CR)
  | 0x86 => pure (w.setReg reg1 (bitNot (w.registers reg1)))
  | 0x87 => w.push (w.registers reg1)
  | 0x88 => do
      let (res, w) ← w.pop
      pure (w.setReg reg1 res)
  | 0x89 => pure { w with IP := w.registers reg1 }
  | 0x8A => pure { w with SP := w.registers reg1 }
  | 0x8B => pure { w with CR := w.registers reg1 }
  | _ => w.error ("2: Unknown instruction: " ++ toString op)

/-- The test `w->CR & val == val` of `B`, `BAS` and `BAL`.  In C++ `==` binds
tighter than `&`, so the expression is `w->CR & (val == val)`. -/
def branchTest (w : World) (val : Nat) : Bool :=
  (w.CR &&& (if val = val then 1 else 0)) ≠ 0

/-- `decodeThree`. -/
def decodeThree (w : World) (op : Nat) : Except Fault World := do
  let reg1 ← w.readMem ((w.PC + 1) % WORD)
  let reg2 ← w.readMem ((w.PC + 2) % WORD)
  let w := { w with PC := (w.PC + 3) % WORD }
  let r1 := w.registers reg1
  let r2 := w.registers reg2
  match op with
  | 0x01 => pure (w.setReg reg1 r2)
  | 0x02 => do
      let b ← w.readMem r2
      pure (w.setReg reg1 (b &&& 0xFF))
  | 0x03 => w.writeMem r2 (r1 &&& 0xFF)
  | 0x04 => pure (w.setReg reg1 (ofSigned (toSigned r1 + toSigned r2)))
  | 0x05 => pure (w.setReg reg1 ((r1 + r2) % WORD))
  | 0x06 => pure (w.setReg reg1 (ofSigned (toSigned r1 - toSigned r2)))
  | 0x07 => pure (w.setReg reg1 ((r1 + WORD - r2 % WORD) % WORD))
  | 0x08 => pure (w.setReg reg1 (ofSigned (toSigned r1 * toSigned r2)))
  | 0x09 => pure (w.setReg reg1 ((r1 * r2) % WORD))
  | 0x0A => pure (w.setReg reg1 (r1 &&& r2))
  | 0x0B => pure (w.setReg reg1 (r1 ||| r2))
  | 0x0C => pure (w.setReg reg1 (r1 ^^^ r2))
  | 0x0D =>
      if branchTest w r1 then pure { w with PC := r2 } else pure w
  | 0x0E =>
      if branchTest w r1 then do
        let w ← w.push w.PC
        pure { w with PC := w.registers reg2 }
      else pure w
  | 0x0F =>
      if toSigned r1 < toSigned r2 then pure { w with CR := w.CR &&& CRLessThan }
      else if toSigned r1 > toSigned r2 then pure { w with CR := w.CR &&& CRGreaterThan }
      else if toSigned r1 = toSigned r2 then pure { w with CR := w.CR &&& CREqual }
      else pure w
  | 0x10 =>
      if r1 < r2 then pure { w with CR := w.CR &&& CRLessThan }
      else if r1 > r2 then pure { w with CR := w.CR &&& CRGreaterThan }
      else if r1 = r2 then pure { w with CR := w.CR &&& CREqual }
      else pure w
  | 0x11 => pure (w.setReg reg1 ((r1 <<< r2) % WORD))
  | 0x12 => pure (w.setReg reg1 (r1 >>> r2))
  | _ => w.error ("3: Unknown instruction: " ++ toString op)

/-- The loop `for (unsigned int i = reg1; i <= reg2; i++)` of `LSM` / `STM`:
the indices `reg1, ..., reg2`. -/
def regRange (reg1 reg2 : Nat) : List Nat := List.range' reg1 (reg2 + 1 - reg1)

/-- `decodeFour`. -/
def decodeFour (w : World) (op : Nat) : Except Fault World := do
  let reg1 ← w.readMem ((w.PC + 1) % WORD)
  let reg2 ← w.readMem ((w.PC + 2) % WORD)
  let reg3 ← w.readMem ((w.PC + 3) % WORD)
  let w := { w with PC := (w.PC + 4) % WORD }
  match op with
  | 0xC1 =>
      let a := toSigned (w.registers reg1)
      let b := toSigned (w.registers reg2)
      if b = 0 then .error .divideByZero
      else if a = -(2 ^ 63 : Int) ∧ b = -1 then .error .divideOverflow
      else pure ((w.setReg reg1 (ofSigned (Int.tdiv a b))).setReg reg3 (ofSigned (Int.tmod a b)))
  | 0xC2 =>
      let a := w.registers reg1
      let b := w.registers reg2
      if b = 0 then .error .divideByZero
      else pure ((w.setReg reg1 (a / b)).setReg reg3 (a % b))
  | 0xC3 =>
      let val := w.registers reg1
      if branchTest w val then
        let w := w.setReg reg3 w.PC
        pure { w with PC := w.registers reg2 }
      else pure w
  | 0xC4 =>
      let val := w.registers reg3
      (regRange reg1 reg2).foldlM
        (fun w i => do
          let x ← w.getAddress val
          pure (w.setReg i x)) w
  | 0xC5 =>
      let val := w.registers reg3
      (regRange reg1 reg2).foldlM (fun w i => w.setAddress val (w.registers i)) w
  | 0xC6 => do
      let val := w.registers reg2
      let mask := w.registers reg1
      let val := val &&& bitNot mask
      let x ← w.getAddress (val &&& mask)
      let val := val ||| x
      pure (w.setReg reg2 val)
  | 0xC7 => do
      let addr := w.registers reg3
      let val := w.registers reg2
      let _val2 ← w.getAddress addr
      let mask := w.registers reg1
      let val := val &&& bitNot mask
      let val := val ||| (val &&& mask)
      w.setAddress addr val
  | _ => w.error ("4: Unknown instruction: " ++ toString op)

/-- The loop of `decodeImm`, `for (i = 0; i < 8; ++i)` with body
`imm |= mem[PC + i]; if (i < 7) imm <<= 8`, started with `imm = 0`. -/
def readImm (w : World) : Except Fault Nat :=
  (List.range 8).foldlM
    (fun imm i => do
      let b ← w.readMem ((w.PC + i) % WORD)
      let imm := imm ||| b
      pure (if i < 7 then (imm <<< 8) % WORD else imm)) 0

/-- `decodeImm`. -/
def decodeImm (w : World) (op : Nat) : Except Fault World := do
  let reg1 ← w.readMem ((w.PC + 1) % WORD)
  let w := { w with PC := (w.PC + 2) % WORD }
  let imm ← readImm w
  let w := { w with PC := (w.PC + 8) % WORD }
  match op with
  | 0xE1 => pure (w.setReg reg1 imm)
  | _ => w.error ("5: Unknown instruction: " ++ toString op)

/-! ## Dispatcher -/

/-- Body of the `while` loop of `decode`; `none` is the `break` of the halt
byte, `some w` the state after one instruction. -/
def decodeBody (w : World) : Except Fault (Option World) := do
  let inst ← w.readMem w.PC
  let mask := inst &&& AllMask
  if inst = 0 then pure none
  else if mask = OneMask then some <$> decodeOne w inst
  else if mask = TwoMask then some <$> decodeTwo w inst
  else if mask = FourMask then some <$> decodeFour w inst
  else if mask = ImmMask then some <$> decodeImm w inst
  else some <$> decodeThree w inst

/-- `decode`: the loop `while (w->PC < w->mem_size)`, bounded by `fuel`
iterations; `none` when the bound is reached before the loop ends. -/
def decode : Nat → World → Option (Except Fault World)
  | 0, _ => none
  | fuel + 1, w =>
    if w.PC < w.mem_size then
      match decodeBody w with
      | .error f => some (.error f)
      | .ok none => some (.ok w)
      | .ok (some w') => decode fuel w'
    else some (.ok w)

/-- The first `n` iterations of the loop body of `decode`; `none` when one of
them meets the halt byte. -/
def steps : Nat → World → Except Fault (Option World)
  | 0, w => pure (some w)
  | n + 1, w => do
    match ← decodeBody w with
    | none => pure none
    | some w' => steps n w'

/-- Width in bytes of the instruction whose opcode byte is `inst`: the amount
by which the handler selected in `decode` advances `PC`. -/
def width (inst : Nat) : Nat :=
  let mask := inst &&& AllMask
  if mask = OneMask then 1
  else if mask = TwoMask then 2
  else if mask = FourMask then 4
  else if mask = ImmMask then 10
  else 3


/-! ## Concrete machines used by the evaluations below -/

/-- A 16-byte zeroed machine whose stack pointer is 8, so that the stack slot
of the next push is `[0, 8)`. -/
def stackDemo : World := { World.new 16 with SP := 8 }

/-- A 64-byte machine: `INT 2` at address 0, vector table at 8, stack top 56. -/
def intDemo : World :=
  { World.new 64 with mem := [0x81, 0x02] ++ List.replicate 62 0, IP := 8, SP := 56 }

/-- A 288-byte machine: `INT 2` at address 0x10, `RET` at address 0x100,
vector table at 0x20, stack top 0x80, `PC = 0x10`. -/
def retDemo : World :=
  { World.new 288 with
    mem := ((List.replicate 288 0).set 0x10 0x81 |>.set 0x11 0x02).set 0x100 0xF2,
    IP := 0x20, SP := 0x80, PC := 0x10 }

/-- A machine holding one two-register instruction `op 1 2` at address 0, with
`R[1] = a`, `R[2] = b` and condition register `cr`. -/
def twoRegDemo (op a b cr : Nat) : World :=
  { World.new 8 with
    mem := [op, 1, 2, 0, 0, 0, 0, 0],
    registers := fun i => if i = 1 then a else if i = 2 then b else 0,
    CR := cr }

/-- A 16-byte machine holding `LI 5, 0x1122334455667788` at address 0. -/
def immDemo : World :=
  { World.new 16 with
    mem := [0xE1, 5, 0x11, 0x22, 0x33, 0x44, 0x55, 0x66, 0x77, 0x88, 0, 0, 0, 0, 0, 0] }

/-- A machine holding the single byte `0xF5`, which is no opcode. -/
def badOpDemo : World := { World.new 1 with mem := [0xF5] }

/-- A 32-byte machine with `R[0] = 1` and `R[1] = 0x41` holding the
instruction `INT` with operand byte `n` at address 0; vector table at 8,
stack top 24. -/
def sysDemo (n : Nat) : World :=
  { World.new 32 with
    mem := [0x81, n] ++ List.replicate 30 0,
    registers := fun i => if i = 0 then 1 else if i = 1 then 0x41 else 0,
    IP := 8, SP := 24 }

/-- An 8-byte machine whose memory holds the bytes `01 02 .. 08`. -/
def wordDemo : World := { World.new 8 with mem := [1, 2, 3, 4, 5, 6, 7, 8] }

/-- A machine holding one three-register instruction `op 1 2 3` at address 0,
followed by the bytes `11 22 .. 99`, with `R[1] = a`, `R[2] = b`, `R[3] = c`. -/
def threeRegDemo (op a b c : Nat) : World :=
  { World.new 16 with
    mem := [op, 1, 2, 3, 0x11, 0x22, 0x33, 0x44, 0x55, 0x66, 0x77, 0x88, 0x99, 0, 0, 0],
    registers := fun i => if i = 1 then a else if i = 2 then b else if i = 3 then c else 0 }

/-- A machine holding the divide `op 1 2 1`, whose first and third operand
are the same register, with `R[1] = a` and `R[2] = b`. -/
def divAliasDemo (op a b : Nat) : World :=
  { World.new 8 with
    mem := [op, 1, 2, 1, 0, 0, 0, 0],
    registers := fun i => if i = 1 then a else if i = 2 then b else 0 }

/-- A 16-byte machine running `CP 1 2; B 1 2; NOP` from address 0 with
`R[1] = 1`, `R[2] = 2` and `CR = 0`. -/
def crDemo : World :=
  { World.new 16 with
    mem := [0x0F, 1, 2, 0x0D, 1, 2, 0xF1, 0, 0, 0, 0, 0, 0, 0, 0, 0],
    registers := fun i => if i = 1 then 1 else if i = 2 then 2 else 0 }

/-- The states in which the first `n + 1` iterations of the loop of `decode`
start: the initial state, then the state left by each instruction, up to the
halt byte, a fault, the end of memory or the `n`-th instruction. -/
def trace : Nat → World → List World
  | 0, w => [w]
  | n + 1, w =>
    if w.PC < w.mem_size then
      match decodeBody w with
      | .ok (some w') => w :: trace n w'
      | _ => [w]
    else [w]

/-- The set-up of `main` on a memory of `size` bytes: `World(size)`, then
`setupStack()` and `setupInterruptVector()` with their default arguments. -/
def defaultSetup (size : Nat) : World :=
  ((World.new size).setupStack 1024).setupInterruptVector 0

/-- The opcodes whose handler reads and writes nothing but registers and the
special registers: `NOP`, `IL`, `IU`; `LPC`, `LSP`, `LIP`, `LCR`, `NOT`, `SIP`,
`SSP`, `SCR`; `L`, `A`, `AU`, `S`, `SU`, `M`, `MU`, `AND`, `OR`, `XOR`, `B`,
`CP`, `CPU`, `SHL`, `SHR`; `D`, `DU`, `BAL`; `LI`. -/
def registerOnly : List Nat :=
  [0xF1, 0xF3, 0xF4,
   0x82, 0x83, 0x84, 0x85, 0x86, 0x89, 0x8A, 0x8B,
   0x01, 0x04, 0x05, 0x06, 0x07, 0x08, 0x09, 0x0A, 0x0B, 0x0C, 0x0D, 0x0F, 0x10, 0x11, 0x12,
   0xC1, 0xC2, 0xC3,
   0xE1]

/-- The arithmetic, logical, move, compare and branch opcodes `L`, `A`, `AU`,
`S`, `SU`, `M`, `MU`, `AND`, `OR`, `XOR`, `SHL`, `SHR`, `NOT`, `CP`, `CPU`,
`D`, `DU`, `B`, `BAL`. -/
def ordinary : List Nat :=
  [0x01, 0x04, 0x05, 0x06, 0x07, 0x08, 0x09, 0x0A, 0x0B, 0x0C, 0x11, 0x12, 0x86, 0x0F, 0x10,
   0xC1, 0xC2, 0x0D, 0xC3]

/-- The value of the register named by the operand byte at `PC + k`. -/
def World.operand (w : World) (k : Nat) : Nat := w.registers (w.mem.getD (w.PC + k) 0)

/-- The conditions, read off the handlers, under which the instruction of
opcode `b` at `PC` runs to its end: `INT 1` is asked for system call 1
(`runInterrupt`); the word written by `PUS` and the word read by `POP` lie
inside memory (`push`, `pop`); the byte addressed by `LS` and `ST` lies inside
memory; `D` and `DU` divide by a divisor other than zero and `D` not
`-2^63` by `-1`; the words addressed by `LSM`, `STM`, `LUM` and `SUM` lie
inside memory (`getAddress` reads offsets `a .. a+7`, `setAddress` writes
offsets `a+1 .. a+8`). -/
def admissible (w : World) (b : Nat) : Prop :=
  (b = 0x81 → w.registers 0 = 1) ∧
  (b = 0x87 → (w.SP + WORD - 8) % WORD + 8 < w.mem.length) ∧
  (b = 0x88 → w.SP + 8 ≤ w.mem.length) ∧
  (b = 0x02 ∨ b = 0x03 → w.operand 2 < w.mem.length) ∧
  (b = 0xC1 → toSigned (w.operand 2) ≠ 0 ∧
    ¬(toSigned (w.operand 1) = -(2 ^ 63 : Int) ∧ toSigned (w.operand 2) = -1)) ∧
  (b = 0xC2 → w.operand 2 ≠ 0) ∧
  (b = 0xC4 → w.operand 3 + 8 ≤ w.mem.length) ∧
  (b = 0xC5 ∨ b = 0xC7 → w.operand 3 + 8 < w.mem.length) ∧
  (b = 0xC6 → ((w.operand 2 &&& bitNot (w.operand 1)) &&& w.operand 1) + 8 ≤ w.mem.length)

instance (w : World) (b : Nat) : Decidable (admissible w b) := by
  unfold admissible
  infer_instance

/-- What the claims observe of a state: `PC` and `SP`. -/
def World.pcsp (w : World) : Nat × Nat := (w.PC, w.SP)

/-! ## Lemmas -/

set_option maxRecDepth 8000

theorem range8 : List.range 8 = [0, 1, 2, 3, 4, 5, 6, 7] := by decide

theorem shl_or_byte (x b : Nat) (hb : b < 256) : (x <<< 8) ||| b = x * 256 + b := by
  have h := @Nat.mul_add_lt_is_or 8 b (by simpa using hb) x
  rw [Nat.shiftLeft_eq, Nat.mul_comm x, ← h]

theorem shl_mod_or_byte (x b : Nat) (hx : x < 2 ^ 56) (hb : b < 256) :
    (x <<< 8 % WORD) ||| b = x * 256 + b := by
  rw [← shl_or_byte x b hb]
  congr 1
  rw [Nat.shiftLeft_eq]
  apply Nat.mod_eq_of_lt
  simp only [WORD]
  omega

/-! ## Addressed words and the stack -/

/-- Claim C1, evaluated on the code: on a zeroed 16-byte memory, writing the
word 1 at address 0 and reading address 0 back gives 0, not 1; writing
`0x0102030405060708` gives back `0x0102030405060700`.  The low byte of the word
written is lost. -/
theorem getAddress_after_setAddress_loses_low_byte :
    ((World.new 16).setAddress 0 1).bind (fun w => w.getAddress 0) = .ok 0 ∧
    ((World.new 16).setAddress 0 0x0102030405060708).bind (fun w => w.getAddress 0)
      = .ok 0x0102030405060700 := by
  constructor <;> rfl

/-- Claim C2, evaluated on the code: with `SP = 8` in a zeroed 16-byte memory,
`push(1)` followed by `pop()` returns 0, not 1, and `push(0x1234)` followed by
`pop()` returns `0x1200`; in both cases `SP` is back at 8. -/
theorem pop_after_push_loses_low_byte :
    ((stackDemo.push 1).bind World.pop).map (fun p => (p.1, p.2.SP)) = .ok (0, 8) ∧
    ((stackDemo.push 0x1234).bind World.pop).map (fun p => (p.1, p.2.SP)) = .ok (0x1200, 8) := by
  constructor <;> rfl

/-- Claim C10, evaluated on the code: on a zeroed 16-byte memory,
`setAddress(0, 0x0102030405060708)` leaves byte 0 at 0 and stores the bytes
`01 .. 08` at offsets 1 .. 8: byte 7 is `0x07` and byte 8, outside `[0, 8)`,
becomes `0x08`. -/
theorem setAddress_writes_one_byte_higher :
    ((World.new 16).setAddress 0 0x0102030405060708).map (fun w => w.mem)
      = .ok [0, 1, 2, 3, 4, 5, 6, 7, 8, 0, 0, 0, 0, 0, 0, 0] := by
  rfl

/-! ## Interrupts -/

/-- Claim C3, evaluated on the code.  First machine: after
`setupInterrupt(2, 0x21)`, the instruction `INT 2` leaves `PC = 0`, not `0x21`.
Second machine: after `setupInterrupt(2, 0x100)`, `INT 2` at `0x10` reaches the
handler at `0x100` with `SP = 0x78`, and the `RET` found there leaves `PC = 0`,
not `0x12`, with `SP` back at `0x80`. -/
theorem interrupt_round_trip_loses_low_bytes :
    ((intDemo.setupInterrupt 2 0x21).bind (steps 1)).map (Option.map World.pcsp)
      = .ok (some (0, 48)) ∧
    ((retDemo.setupInterrupt 2 0x100).bind (steps 1)).map (Option.map World.pcsp)
      = .ok (some (0x100, 0x78)) ∧
    ((retDemo.setupInterrupt 2 0x100).bind (steps 2)).map (Option.map World.pcsp)
      = .ok (some (0, 0x80)) := by
  refine ⟨?_, ?_, ?_⟩ <;> rfl

/-! ## Branches and compares -/

/-- Claim C4, evaluated on the code: `B 1 2` at address 0 with target
`R[2] = 0x40`.  With `CR = 0` and tested value `R[1] = 0` the claim's test
`(CR & v) == v` holds, yet the branch is not taken (`PC = 3`); with `CR = 1`
and `R[1] = 2` the claim's test fails, yet the branch is taken (`PC = 0x40`). -/
theorem branch_tests_low_bit_of_CR :
    (decodeBody (twoRegDemo 0x0D 0 0x40 0)).map (Option.map World.PC) = .ok (some 3) ∧
    (decodeBody (twoRegDemo 0x0D 2 0x40 1)).map (Option.map World.PC) = .ok (some 0x40) := by
  constructor <;> rfl

/-- Claim C5, evaluated on the code: with `CR = 0` before, `CP 1 2` and
`CPU 1 2` on `R[1] = 1 < R[2] = 2` leave `CR = 0`, not bit 63; likewise
for `R[1] = 2 > R[2] = 1` and for `R[1] = R[2] = 1`. -/
theorem compare_keeps_CR_zero :
    (decodeBody (twoRegDemo 0x0F 1 2 0)).map (Option.map World.CR) = .ok (some 0) ∧
    (decodeBody (twoRegDemo 0x10 1 2 0)).map (Option.map World.CR) = .ok (some 0) ∧
    (decodeBody (twoRegDemo 0x0F 2 1 0)).map (Option.map World.CR) = .ok (some 0) ∧
    (decodeBody (twoRegDemo 0x10 2 1 0)).map (Option.map World.CR) = .ok (some 0) ∧
    (decodeBody (twoRegDemo 0x0F 1 1 0)).map (Option.map World.CR) = .ok (some 0) ∧
    (decodeBody (twoRegDemo 0x10 1 1 0)).map (Option.map World.CR) = .ok (some 0) := by
  refine ⟨?_, ?_, ?_, ?_, ?_, ?_⟩ <;> rfl

theorem branchTest_iff (w : World) (val : Nat) : branchTest w val = true ↔ w.CR % 2 = 1 := by
  have h : w.CR &&& 1 = w.CR % 2 := Nat.and_one_is_mod _
  simp only [branchTest, if_true, h, decide_eq_true_eq]
  omega

/-- What `B` does on every state: the branch is taken exactly when bit 0 of
`CR` is set, whatever the tested register holds. -/
theorem decodeBody_B (w : World) (c t : Nat) (hsize : w.mem.length < 2 ^ 64)
    (hop : w.mem[w.PC]? = some 0x0D) (hc : w.mem[w.PC + 1]? = some c)
    (ht : w.mem[w.PC + 2]? = some t) :
    decodeBody w
      = .ok (some { w with PC := if w.CR % 2 = 1 then w.registers t else w.PC + 3 }) := by
  have hlen : w.PC + 2 < w.mem.length := (List.getElem?_eq_some_iff.1 ht).1
  have hm : ∀ k, k < 4 → (w.PC + k) % WORD = w.PC + k := fun k hk =>
    Nat.mod_eq_of_lt (by simp only [WORD]; omega)
  have e1 : (13 &&& AllMask = OneMask) = False := by decide
  have e2 : (13 &&& AllMask = TwoMask) = False := by decide
  have e3 : (13 &&& AllMask = FourMask) = False := by decide
  have e4 : (13 &&& AllMask = ImmMask) = False := by decide
  have hb := branchTest_iff { w with PC := w.PC + 3 } (w.registers c)
  simp only [decodeBody, decodeThree, World.readMem, hop, hc, ht, hm 1 (by norm_num),
    hm 2 (by norm_num), hm 3 (by norm_num), bind, Except.bind]
  by_cases h : w.CR % 2 = 1
  · simp [e1, e2, e3, e4, hb.2 h, h, pure, Except.pure, Functor.map, Except.map]
  · have hf : branchTest { w with PC := w.PC + 3 } (w.registers c) = false := by
      rw [Bool.eq_false_iff]; exact fun hh => h (hb.1 hh)
    simp [e1, e2, e3, e4, hf, h, pure, Except.pure, Functor.map, Except.map]

/-- What `CPU` does on every state: the flag of the comparison is combined
into `CR` with a bitwise and. -/
theorem decodeBody_CPU (w : World) (x y : Nat) (hsize : w.mem.length < 2 ^ 64)
    (hop : w.mem[w.PC]? = some 0x10) (hx : w.mem[w.PC + 1]? = some x)
    (hy : w.mem[w.PC + 2]? = some y) :
    decodeBody w = .ok (some { w with
      PC := w.PC + 3,
      CR := w.CR &&& (if w.registers x < w.registers y then CRLessThan
        else if w.registers x > w.registers y then CRGreaterThan else CREqual) }) := by
  have hlen : w.PC + 2 < w.mem.length := (List.getElem?_eq_some_iff.1 hy).1
  have hm : ∀ k, k < 4 → (w.PC + k) % WORD = w.PC + k := fun k hk =>
    Nat.mod_eq_of_lt (by simp only [WORD]; omega)
  have e1 : (16 &&& AllMask = OneMask) = False := by decide
  have e2 : (16 &&& AllMask = TwoMask) = False := by decide
  have e3 : (16 &&& AllMask = FourMask) = False := by decide
  have e4 : (16 &&& AllMask = ImmMask) = False := by decide
  simp only [decodeBody, decodeThree, World.readMem, hop, hx, hy, hm 1 (by norm_num),
    hm 2 (by norm_num), hm 3 (by norm_num), bind, Except.bind]
  rcases Nat.lt_trichotomy (w.registers x) (w.registers y) with h | h | h
  · simp [e1, e2, e3, e4, h, pure, Except.pure, Functor.map, Except.map]
  · simp [e1, e2, e3, e4, h, pure, Except.pure, Functor.map, Except.map]
  · have h' : ¬ w.registers x < w.registers y := by omega
    simp [e1, e2, e3, e4, h, h', pure, Except.pure, Functor.map, Except.map]

/-- What `CP` does on every state: the flag of the signed comparison is
combined into `CR` with a bitwise and. -/
theorem decodeBody_CP (w : World) (x y : Nat) (hsize : w.mem.length < 2 ^ 64)
    (hop : w.mem[w.PC]? = some 0x0F) (hx : w.mem[w.PC + 1]? = some x)
    (hy : w.mem[w.PC + 2]? = some y) :
    decodeBody w = .ok (some { w with
      PC := w.PC + 3,
      CR := w.CR &&& (if toSigned (w.registers x) < toSigned (w.registers y) then CRLessThan
        else if toSigned (w.registers x) > toSigned (w.registers y) then CRGreaterThan
        else CREqual) }) := by
  have hlen : w.PC + 2 < w.mem.length := (List.getElem?_eq_some_iff.1 hy).1
  have hm : ∀ k, k < 4 → (w.PC + k) % WORD = w.PC + k := fun k hk =>
    Nat.mod_eq_of_lt (by simp only [WORD]; omega)
  have e1 : (15 &&& AllMask = OneMask) = False := by decide
  have e2 : (15 &&& AllMask = TwoMask) = False := by decide
  have e3 : (15 &&& AllMask = FourMask) = False := by decide
  have e4 : (15 &&& AllMask = ImmMask) = False := by decide
  simp only [decodeBody, decodeThree, World.readMem, hop, hx, hy, hm 1 (by norm_num),
    hm 2 (by norm_num), hm 3 (by norm_num), bind, Except.bind]
  rcases lt_trichotomy (toSigned (w.registers x)) (toSigned (w.registers y)) with h | h | h
  · simp [e1, e2, e3, e4, h, pure, Except.pure, Functor.map, Except.map]
  · simp [e1, e2, e3, e4, h, pure, Except.pure, Functor.map, Except.map]
  · have h' : ¬ toSigned (w.registers x) < toSigned (w.registers y) := not_lt.2 h.le
    simp [e1, e2, e3, e4, h, h', pure, Except.pure, Functor.map, Except.map]

/-! ## Immediate load -/

theorem imm_step (v c d : Nat) (hd : d = c * 256) (hv : v < 2 ^ 64) :
    ((v / d) <<< 8 % WORD) ||| (v / c % 256) = v / c := by
  subst hd
  rw [← Nat.div_div_eq_div_mul]
  have hq : v / c < 2 ^ 64 := lt_of_le_of_lt (Nat.div_le_self _ _) hv
  generalize v / c = q at hq
  rw [shl_mod_or_byte _ _ (by omega) (by omega)]
  omega

/-- The loop of `decodeImm` assembles the eight bytes at `PC`, most
significant first, into the word they encode. -/
theorem readImm_value (w : World) (v : Nat) (hv : v < 2 ^ 64)
    (hsize : w.mem.length < 2 ^ 64)
    (hlit : ∀ k, k < 8 → w.mem[w.PC + k]? = some (v / 256 ^ (7 - k) % 256)) :
    readImm w = .ok v := by
  have hlen : w.PC + 7 < w.mem.length := by
    obtain ⟨h, _⟩ := List.getElem?_eq_some_iff.1 (hlit 7 (by norm_num))
    omega
  have hm0 : w.PC % WORD = w.PC := Nat.mod_eq_of_lt (by simp only [WORD]; omega)
  have hm : ∀ k, k < 8 → (w.PC + k) % WORD = w.PC + k := fun k hk =>
    Nat.mod_eq_of_lt (by simp only [WORD]; omega)
  have h0 := hlit 0 (by norm_num)
  have h1 := hlit 1 (by norm_num)
  have h2 := hlit 2 (by norm_num)
  have h3 := hlit 3 (by norm_num)
  have h4 := hlit 4 (by norm_num)
  have h5 := hlit 5 (by norm_num)
  have h6 := hlit 6 (by norm_num)
  have h7 := hlit 7 (by norm_num)
  have hb0 : v / 72057594037927936 % 256 = v / 72057594037927936 :=
    Nat.mod_eq_of_lt (by omega)
  simp only [Nat.add_zero, Nat.sub_zero, Nat.reduceSub, Nat.reducePow, Nat.div_one, hb0]
    at h0 h1 h2 h3 h4 h5 h6 h7
  simp [readImm, range8, List.foldlM, World.readMem, hm0, hm, h0, h1, h2, h3, h4, h5, h6, h7,
    bind, Except.bind, pure, Except.pure]
  rw [imm_step v 281474976710656 72057594037927936 (by norm_num) hv,
    imm_step v 1099511627776 281474976710656 (by norm_num) hv,
    imm_step v 4294967296 1099511627776 (by norm_num) hv,
    imm_step v 16777216 4294967296 (by norm_num) hv,
    imm_step v 65536 16777216 (by norm_num) hv,
    imm_step v 256 65536 (by norm_num) hv]
  have := imm_step v 1 256 (by norm_num) hv
  simpa using this

/-- Claim C6: one iteration of the dispatcher loop on `0xE1, r` followed by
the eight bytes of `v`, most significant first, sets `R[r] = v`, moves `PC`
forward by 10 and changes nothing else. -/
theorem decodeBody_LI (w : World) (r v : Nat) (hv : v < 2 ^ 64)
    (hsize : w.mem.length < 2 ^ 64)
    (hop : w.mem[w.PC]? = some 0xE1)
    (hreg : w.mem[w.PC + 1]? = some r)
    (hlit : ∀ k, k < 8 → w.mem[w.PC + 2 + k]? = some (v / 256 ^ (7 - k) % 256)) :
    decodeBody w = .ok (some { w with
      PC := w.PC + 10,
      registers := fun i => if i = r then v else w.registers i }) := by
  have hlen : w.PC + 9 < w.mem.length := by
    obtain ⟨h, _⟩ := List.getElem?_eq_some_iff.1 (hlit 7 (by norm_num))
    omega
  have hm : ∀ k, k < 11 → (w.PC + k) % WORD = w.PC + k := fun k hk =>
    Nat.mod_eq_of_lt (by simp only [WORD]; omega)
  have himm : readImm { w with PC := (w.PC + 2) % WORD } = .ok v :=
    readImm_value _ v hv hsize (fun k hk => by
      show w.mem[(w.PC + 2) % WORD + k]? = _
      rw [hm 2 (by norm_num)]
      exact hlit k hk)
  have e1 : (225 &&& AllMask = OneMask) = False := by decide
  have e2 : (225 &&& AllMask = TwoMask) = False := by decide
  have e3 : (225 &&& AllMask = FourMask) = False := by decide
  have e4 : (225 &&& AllMask = ImmMask) = True := by decide
  simp only [decodeBody, decodeImm, World.readMem, hop, hreg, hm 1 (by norm_num), bind,
    Except.bind, himm]
  simp [World.setReg, e1, e2, e3, e4, pure, Except.pure, Functor.map, Except.map]
  simp only [WORD]
  omega

/-- Claim C6 at register 5 and literal `0x1122334455667788`. -/
theorem decodeBody_LI_witness :
    decodeBody immDemo = .ok (some { immDemo with
      PC := immDemo.PC + 10,
      registers := fun i => if i = 5 then 0x1122334455667788 else immDemo.registers i }) :=
  decodeBody_LI immDemo 5 0x1122334455667788 (by norm_num) (by decide) (by decide)
    (by decide) (by decide)

/-! ## Software interrupts -/

/-- Claim C8: with `R[0] = 1`, raising interrupt 1 appends the low byte of
`R[1]` to the output and changes nothing else, and the instruction `INT 1`
does that and moves `PC` forward by 2. -/
theorem int1_putchar (w : World) (hsize : w.mem.length < 2 ^ 64)
    (hop : w.mem[w.PC]? = some 0x81) (hnum : w.mem[w.PC + 1]? = some 1)
    (h0 : w.registers 0 = 1) :
    runInterrupt w 1 = .ok { w with cout := w.cout ++ [w.registers 1 % 256] } ∧
    decodeBody w = .ok (some { w with
      PC := w.PC + 2,
      cout := w.cout ++ [w.registers 1 % 256] }) := by
  have hlen : w.PC + 1 < w.mem.length := (List.getElem?_eq_some_iff.1 hnum).1
  have hm : ∀ k, k < 3 → (w.PC + k) % WORD = w.PC + k := fun k hk =>
    Nat.mod_eq_of_lt (by simp only [WORD]; omega)
  have hb : w.registers 1 &&& 255 = w.registers 1 % 256 :=
    Nat.and_pow_two_sub_one_eq_mod _ 8
  have e1 : (129 &&& AllMask = OneMask) = False := by decide
  have e2 : (129 &&& AllMask = TwoMask) = True := by decide
  constructor
  · simp [runInterrupt, h0, hb, pure, Except.pure]
  · simp [decodeBody, decodeTwo, runInterrupt, World.readMem, bind, Except.bind, hm, hop, hnum,
      e1, e2, h0, hb, pure, Except.pure, Functor.map, Except.map]

/-- Claim C8 on the machine with `R[0] = 1`, `R[1] = 0x41` and `INT 1` at
address 0: the byte `0x41` is emitted. -/
theorem int1_putchar_witness :
    runInterrupt (sysDemo 1) 1 = .ok { sysDemo 1 with cout := [] ++ [0x41 % 256] } ∧
    decodeBody (sysDemo 1) = .ok (some { sysDemo 1 with
      PC := 0 + 2,
      cout := [] ++ [0x41 % 256] }) :=
  int1_putchar (sysDemo 1) (by decide) (by decide) (by decide) (by decide)

/-- Claim C9 fails as stated: on the machine with `R[0] = 1`, `R[1] = 0x41`,
the instruction `INT` with operand 0 names register 0, whose low byte is 1,
yet nothing is emitted: interrupt 0 is raised through the vector table
(`PC` becomes the word of slot 0 and `SP` drops by 8). -/
theorem int_on_register_0_emits_nothing :
    (sysDemo 0).registers 0 % 256 = 1 ∧
    (decodeBody (sysDemo 0)).map (Option.map fun w => (w.cout, w.PC, w.SP))
      = .ok (some ([], 0, 16)) := by
  constructor <;> rfl

/-- Claim C9 as amended: the interrupt raised by `INT` has the number given by
the operand byte itself: the step is `runInterrupt` of that byte, run after
`PC` has moved forward by 2.  So `INT` with operand byte 1 and `R[0] = 1` is
the character output: it emits the low byte of `R[1]`. -/
theorem int_raises_operand_byte (w : World) (n : Nat) (hsize : w.mem.length < 2 ^ 64)
    (hop : w.mem[w.PC]? = some 0x81) (hnum : w.mem[w.PC + 1]? = some n) :
    decodeBody w = (runInterrupt { w with PC := w.PC + 2 } n).map some ∧
    (n = 1 → w.registers 0 = 1 →
      decodeBody w = .ok (some { w with
        PC := w.PC + 2,
        cout := w.cout ++ [w.registers 1 % 256] })) := by
  have hlen : w.PC + 1 < w.mem.length := (List.getElem?_eq_some_iff.1 hnum).1
  have hm : ∀ k, k < 3 → (w.PC + k) % WORD = w.PC + k := fun k hk =>
    Nat.mod_eq_of_lt (by simp only [WORD]; omega)
  have e1 : (129 &&& AllMask = OneMask) = False := by decide
  have e2 : (129 &&& AllMask = TwoMask) = True := by decide
  have hb : w.registers 1 &&& 255 = w.registers 1 % 256 :=
    Nat.and_pow_two_sub_one_eq_mod _ 8
  have hstep : decodeBody w = (runInterrupt { w with PC := w.PC + 2 } n).map some := by
    simp [decodeBody, decodeTwo, World.readMem, bind, Except.bind, hm, hop, hnum,
      e1, e2, Functor.map]
  refine ⟨hstep, fun h1 h0 => ?_⟩
  rw [hstep, h1]
  simp [runInterrupt, h0, hb, pure, Except.pure, Except.map]

/-- Claim C9 as amended, on the machine with `R[0] = 1`, `R[1] = 0x41` and
`INT 1` at address 0: the byte `0x41` is emitted. -/
theorem int_raises_operand_byte_witness :
    decodeBody (sysDemo 1) = (runInterrupt { sysDemo 1 with PC := 0 + 2 } 1).map some ∧
    decodeBody (sysDemo 1) = .ok (some { sysDemo 1 with
      PC := 0 + 2,
      cout := [] ++ [0x41 % 256] }) :=
  have h := int_raises_operand_byte (sysDemo 1) 1 (by decide) (by decide) (by decide)
  ⟨h.1, h.2 rfl rfl⟩

/-! ## Unmapped opcodes -/

theorem readMem_of_lt (w : World) (a : Nat) (h : a < w.mem.length) :
    w.readMem a = .ok w.mem[a] := by
  simp [World.readMem, h]

theorem decodeOne_unknown (w : World) (b : Nat)
    (h : b ≠ 0xF1 ∧ b ≠ 0xF2 ∧ b ≠ 0xF3 ∧ b ≠ 0xF4) :
    decodeOne w b
      = .error (.error ((w.PC + 1) % WORD) ("1: Unknown instruction: " ++ toString b)) := by
  obtain ⟨h1, h2, h3, h4⟩ := h
  unfold decodeOne
  split <;> first | contradiction | rfl

theorem decodeTwo_unknown (w : World) (b : Nat) (hr : (w.PC + 1) % WORD < w.mem.length)
    (h : b ≠ 0x81 ∧ b ≠ 0x82 ∧ b ≠ 0x83 ∧ b ≠ 0x84 ∧ b ≠ 0x85 ∧ b ≠ 0x86 ∧ b ≠ 0x87 ∧
      b ≠ 0x88 ∧ b ≠ 0x89 ∧ b ≠ 0x8A ∧ b ≠ 0x8B) :
    decodeTwo w b
      = .error (.error ((w.PC + 2) % WORD) ("2: Unknown instruction: " ++ toString b)) := by
  obtain ⟨h1, h2, h3, h4, h5, h6, h7, h8, h9, h10, h11⟩ := h
  unfold decodeTwo
  rw [readMem_of_lt w _ hr]
  simp only [bind, Except.bind]
  rfl

theorem decodeThree_unknown (w : World) (b : Nat) (hr1 : (w.PC + 1) % WORD < w.mem.length)
    (hr2 : (w.PC + 2) % WORD < w.mem.length)
    (h : b ≠ 0x01 ∧ b ≠ 0x02 ∧ b ≠ 0x03 ∧ b ≠ 0x04 ∧ b ≠ 0x05 ∧ b ≠ 0x06 ∧ b ≠ 0x07 ∧
      b ≠ 0x08 ∧ b ≠ 0x09 ∧ b ≠ 0x0A ∧ b ≠ 0x0B ∧ b ≠ 0x0C ∧ b ≠ 0x0D ∧ b ≠ 0x0E ∧
      b ≠ 0x0F ∧ b ≠ 0x10 ∧ b ≠ 0x11 ∧ b ≠ 0x12) :
    decodeThree w b
      = .error (.error ((w.PC + 3) % WORD) ("3: Unknown instruction: " ++ toString b)) := by
  obtain ⟨h1, h2, h3, h4, h5, h6, h7, h8, h9, h10, h11, h12, h13, h14, h15, h16, h17, h18⟩ := h
  unfold decodeThree
  rw [readMem_of_lt w _ hr1, readMem_of_lt w _ hr2]
  simp only [bind, Except.bind]
  rfl

theorem decodeFour_unknown (w : World) (b : Nat) (hr1 : (w.PC + 1) % WORD < w.mem.length)
    (hr2 : (w.PC + 2) % WORD < w.mem.length) (hr3 : (w.PC + 3) % WORD < w.mem.length)
    (h : b ≠ 0xC1 ∧ b ≠ 0xC2 ∧ b ≠ 0xC3 ∧ b ≠ 0xC4 ∧ b ≠ 0xC5 ∧ b ≠ 0xC6 ∧ b ≠ 0xC7) :
    decodeFour w b
      = .error (.error ((w.PC + 4) % WORD) ("4: Unknown instruction: " ++ toString b)) := by
  obtain ⟨h1, h2, h3, h4, h5, h6, h7⟩ := h
  unfold decodeFour
  rw [readMem_of_lt w _ hr1, readMem_of_lt w _ hr2, readMem_of_lt w _ hr3]
  simp only [bind, Except.bind]
  rfl

theorem readImm_ok (w : World) (h : w.PC + 8 ≤ w.mem.length) (hs : w.mem.length < 2 ^ 64) :
    ∃ imm, readImm w = .ok imm := by
  have hm0 : w.PC % WORD = w.PC := Nat.mod_eq_of_lt (by simp only [WORD]; omega)
  have hm : ∀ k, k < 8 → (w.PC + k) % WORD = w.PC + k := fun k hk =>
    Nat.mod_eq_of_lt (by simp only [WORD]; omega)
  have hr0 : w.readMem w.PC = .ok (w.mem.getD w.PC 0) := by
    rw [readMem_of_lt w _ (by omega), List.getD_eq_getElem _ _ (by omega)]
  have hr : ∀ k, k < 8 → w.readMem (w.PC + k) = .ok (w.mem.getD (w.PC + k) 0) := fun k hk => by
    rw [readMem_of_lt w _ (by omega), List.getD_eq_getElem _ _ (by omega)]
  simp [readImm, range8, List.foldlM, hm0, hm, hr0, hr, bind, Except.bind, pure, Except.pure]

theorem decodeImm_unknown (w : World) (b : Nat) (hlen : w.PC + 10 ≤ w.mem.length)
    (hsize : w.mem.length < 2 ^ 64) (h : b ≠ 0xE1) :
    decodeImm w b
      = .error (.error (w.PC + 10) ("5: Unknown instruction: " ++ toString b)) := by
  have hm : ∀ k, k < 11 → (w.PC + k) % WORD = w.PC + k := fun k hk =>
    Nat.mod_eq_of_lt (by simp only [WORD]; omega)
  obtain ⟨imm, himm⟩ := readImm_ok { w with PC := (w.PC + 2) % WORD }
    (by show (w.PC + 2) % WORD + 8 ≤ w.mem.length; rw [hm 2 (by norm_num)]; omega) hsize
  unfold decodeImm
  rw [readMem_of_lt w _ (by rw [hm 1 (by norm_num)]; omega)]
  simp only [bind, Except.bind, himm]
  simp [World.error, hm]
  simp only [WORD]
  omega

/-- Claim C7 fails as stated: on the one-byte image `0xF5` the step ends in
the decode error, and the `PC` reported with it is 1 while the offending byte
is at address 0. -/
theorem unmapped_opcode_reports_next_PC :
    badOpDemo.PC = 0 ∧
    decodeBody badOpDemo = .error (.error 1 "1: Unknown instruction: 245") := by
  constructor <;> rfl

/-- Claim C7 as amended: when the byte at `PC` is neither zero nor an opcode
and the instruction of its class lies inside memory, the step ends in the
decode error of `World::error`, reported with `PC` already moved past the
instruction: the old `PC` plus the width of the class. -/
theorem unmapped_opcode_error (w : World) (b : Nat) (hsize : w.mem.length < 2 ^ 64)
    (hop : w.mem[w.PC]? = some b) (hnz : b ≠ 0) (hun : b ∉ opcodes)
    (hlen : w.PC + width b ≤ w.mem.length) :
    ∃ msg, decodeBody w = .error (.error (w.PC + width b) msg) := by
  simp only [opcodes, List.mem_cons, List.mem_singleton, not_or, List.not_mem_nil] at hun
  have hm : ∀ k, k ≤ width b → (w.PC + k) % WORD = w.PC + k := fun k hk =>
    Nat.mod_eq_of_lt (by simp only [WORD]; omega)
  have hlt : ∀ k, k < width b → (w.PC + k) % WORD < w.mem.length := fun k hk => by
    rw [hm k (by omega)]; omega
  have hbody : decodeBody w =
      if b &&& AllMask = OneMask then some <$> decodeOne w b
      else if b &&& AllMask = TwoMask then some <$> decodeTwo w b
      else if b &&& AllMask = FourMask then some <$> decodeFour w b
      else if b &&& AllMask = ImmMask then some <$> decodeImm w b
      else some <$> decodeThree w b := by
    simp [decodeBody, World.readMem, hop, bind, Except.bind, hnz]
  rw [hbody]
  by_cases m1 : b &&& AllMask = OneMask
  · have hw : width b = 1 := by simp [width, m1]
    rw [hw] at hm hlt hlen ⊢
    rw [if_pos m1, decodeOne_unknown w b (by tauto), hm 1 (by norm_num)]
    exact ⟨_, rfl⟩
  by_cases m2 : b &&& AllMask = TwoMask
  · have hw : width b = 2 := by simp [width, m1, m2]
    rw [hw] at hm hlt hlen ⊢
    rw [if_neg m1, if_pos m2, decodeTwo_unknown w b (hlt 1 (by norm_num)) (by tauto),
      hm 2 (by norm_num)]
    exact ⟨_, rfl⟩
  by_cases m3 : b &&& AllMask = FourMask
  · have hw : width b = 4 := by simp [width, m1, m2, m3]
    rw [hw] at hm hlt hlen ⊢
    rw [if_neg m1, if_neg m2, if_pos m3, decodeFour_unknown w b (hlt 1 (by norm_num))
      (hlt 2 (by norm_num)) (hlt 3 (by norm_num)) (by tauto), hm 4 (by norm_num)]
    exact ⟨_, rfl⟩
  by_cases m4 : b &&& AllMask = ImmMask
  · have hw : width b = 10 := by simp [width, m1, m2, m3, m4]
    rw [hw] at hm hlt hlen ⊢
    rw [if_neg m1, if_neg m2, if_neg m3, if_pos m4, decodeImm_unknown w b hlen hsize (by tauto)]
    exact ⟨_, rfl⟩
  · have hw : width b = 3 := by simp [width, m1, m2, m3, m4]
    rw [hw] at hm hlt hlen ⊢
    rw [if_neg m1, if_neg m2, if_neg m3, if_neg m4, decodeThree_unknown w b (hlt 1 (by norm_num))
      (hlt 2 (by norm_num)) (by tauto), hm 3 (by norm_num)]
    exact ⟨_, rfl⟩

/-- Claim C7 as amended, on the one-byte image `0xF5`. -/
theorem unmapped_opcode_error_witness :
    ∃ msg, decodeBody badOpDemo = .error (.error (0 + width 0xF5) msg) :=
  unmapped_opcode_error badOpDemo 0xF5 (by decide) (by decide) (by decide) (by decide)
    (by decide)

/-! ## Reading a word -/

/-- Claim C11, evaluated on the code: on the memory `01 02 .. 08`,
`getAddress(0)` returns `0x0203040506070800`, not `0x0102030405060708`: the
byte at the address is shifted out and the low byte of the result is 0. -/
theorem getAddress_drops_first_byte :
    wordDemo.getAddress 0 = .ok 0x0203040506070800 := by
  rfl

/-- Claim C18, evaluated on the code: on a memory of 8 bytes the address 0
satisfies `0 <= a <= n - 8`; `getAddress(0)` stays inside the buffer, but
`setAddress(0, w)` starts by writing offset 8, outside it. -/
theorem setAddress_leaves_buffer :
    (World.new 8).getAddress 0 = .ok 0 ∧
    ((World.new 8).setAddress 0 0x0102030405060708).map World.mem = .error (.outOfRange 8) := by
  constructor <;> rfl

/-! ## Halt -/

/-- Claim C13: when the byte at `PC` is zero and `PC` is inside memory, the
loop of `decode` ends at once, without a fault, in the state it started
from. -/
theorem decode_halt (w : World) (fuel : Nat) (hpc : w.PC < w.mem_size)
    (hz : w.mem[w.PC]? = some 0) :
    decode (fuel + 1) w = some (.ok w) := by
  simp [decode, hpc, decodeBody, World.readMem, hz, bind, Except.bind, pure, Except.pure]

/-- Claim C13 on the image whose first byte is `0x00`: `PC` stays 0. -/
theorem decode_halt_witness :
    decode (0 + 1) (World.new 16) = some (.ok (World.new 16)) ∧ (World.new 16).PC = 0 :=
  ⟨decode_halt (World.new 16) 0 (by decide) (by decide), rfl⟩

/-! ## Signed and unsigned arithmetic -/

theorem toSigned_emod (x : Nat) : toSigned x % (WORD : Int) = (x : Int) % (WORD : Int) := by
  unfold toSigned
  split
  · simp only [WORD]; omega
  · simp only [WORD]; omega

theorem ofSigned_congr (i : Int) (n : Nat) (h : i % (WORD : Int) = (n : Int) % (WORD : Int)) :
    ofSigned i = n % WORD := by
  unfold ofSigned
  rw [h]
  simp only [WORD]
  omega

theorem signed_add (a b : Nat) : ofSigned (toSigned a + toSigned b) = (a + b) % WORD := by
  apply ofSigned_congr
  rw [Int.add_emod, toSigned_emod, toSigned_emod, ← Int.add_emod]
  push_cast
  rfl

theorem signed_sub (a b : Nat) :
    ofSigned (toSigned a - toSigned b) = (a + WORD - b % WORD) % WORD := by
  have h : ofSigned (toSigned a - toSigned b) = (a + (WORD - b % WORD)) % WORD := by
    apply ofSigned_congr
    rw [Int.sub_emod, toSigned_emod, toSigned_emod]
    simp only [WORD]
    omega
  rw [h]
  have : b % WORD < WORD := Nat.mod_lt _ (by norm_num)
  congr 1
  omega

theorem signed_mul (a b : Nat) : ofSigned (toSigned a * toSigned b) = (a * b) % WORD := by
  apply ofSigned_congr
  rw [Int.mul_emod, toSigned_emod, toSigned_emod, ← Int.mul_emod]
  push_cast
  rfl

/-- Claim C20: on every state the handler does the same for `A` as for `AU`,
for `S` as for `SU` and for `M` as for `MU`: the signed operation, stored
back modulo `2 ^ 64`, is the unsigned one. -/
theorem signed_ops_eq_unsigned (w : World) :
    decodeThree w 0x04 = decodeThree w 0x05 ∧
    decodeThree w 0x06 = decodeThree w 0x07 ∧
    decodeThree w 0x08 = decodeThree w 0x09 := by
  simp only [decodeThree, signed_add, signed_sub, signed_mul, and_self]

/-! ## Default layout of the stack and the vector table -/

/-- After the default set-up the vector table starts at the lowest word of the
reserved stack region and its 256 slots all lie inside that region. -/
theorem defaultSetup_layout (size : Nat) (hlo : 8200 ≤ size) (hhi : size < 2 ^ 64) :
    (defaultSetup size).SP = size - 8 ∧
    (defaultSetup size).stack_size = 1024 ∧
    (defaultSetup size).IP = (defaultSetup size).SP - 8 * (defaultSetup size).stack_size ∧
    ∀ n, n < 256 →
      (defaultSetup size).SP - 8 * (defaultSetup size).stack_size
          ≤ (defaultSetup size).IP + 8 * n ∧
        (defaultSetup size).IP + 8 * n ≤ (defaultSetup size).SP := by
  have hsp : (size + WORD - 8) % WORD = size - 8 := by simp only [WORD]; omega
  have hne : size - 8 ≠ 0 := by omega
  have hip : (size - 8 + WORD - 8 * 1024 % WORD) % WORD = size - 8200 := by
    simp only [WORD]; omega
  simp only [defaultSetup, World.new, World.setupStack, World.setupInterruptVector,
    World.mem_size, List.length_replicate, hsp, hne, if_true, if_false, hip]
  refine ⟨trivial, trivial, by omega, fun n hn => by omega⟩

/-- Claim C17, evaluated on the code: on the 5 MB machine of `main` the stack
top is `SP = 5242872`, the reserved region is `[5234680, 5242872]`, and the
vector table starts at `IP = 5234680`, the lowest reserved word: every slot
address `IP + 8 * n`, `n < 256`, lies inside the reserved region. -/
theorem default_vector_table_inside_stack_region :
    (defaultSetup 5242880).SP = 5242872 ∧
    (defaultSetup 5242880).stack_size = 1024 ∧
    (defaultSetup 5242880).IP = 5234680 ∧
    ∀ n, n < 256 →
      5242872 - 8 * 1024 ≤ (defaultSetup 5242880).IP + 8 * n ∧
        (defaultSetup 5242880).IP + 8 * n ≤ 5242872 := by
  obtain ⟨h1, h2, h3, h4⟩ := defaultSetup_layout 5242880 (by norm_num) (by norm_num)
  rw [h1, h2] at h3 h4
  exact ⟨h1, h2, h3, h4⟩

/-! ## Division -/

theorem tmod_between (a b : Int) :
    (0 ≤ a → 0 ≤ Int.tmod a b ∧ Int.tmod a b ≤ a) ∧
    (a ≤ 0 → a ≤ Int.tmod a b ∧ Int.tmod a b ≤ 0) := by
  rcases a with m | m <;> rcases b with n | n
  · have := Nat.mod_le m n
    simp only [Int.tmod, Int.ofNat_eq_coe, Nat.succ_eq_add_one]
    omega
  · have := Nat.mod_le m (n + 1)
    simp only [Int.tmod, Int.ofNat_eq_coe, Nat.succ_eq_add_one]
    omega
  · have := Nat.mod_le (m + 1) n
    simp only [Int.tmod, Int.ofNat_eq_coe, Int.negSucc_eq, Nat.succ_eq_add_one]
    omega
  · have := Nat.mod_le (m + 1) (n + 1)
    simp only [Int.tmod, Int.ofNat_eq_coe, Int.negSucc_eq, Nat.succ_eq_add_one]
    omega

theorem tdiv_range (a b : Int) (hlo : -(2 ^ 63 : Int) ≤ a) (hhi : a < 2 ^ 63)
    (hov : ¬(a = -(2 ^ 63 : Int) ∧ b = -1)) :
    -(2 ^ 63 : Int) ≤ Int.tdiv a b ∧ Int.tdiv a b < 2 ^ 63 := by
  have habs : (Int.tdiv a b).natAbs ≤ a.natAbs := by
    rw [Int.natAbs_tdiv]
    exact Nat.div_le_self _ _
  refine ⟨by omega, ?_⟩
  by_contra hge
  have hq : Int.tdiv a b = 2 ^ 63 := by omega
  have ha : a = -(2 ^ 63 : Int) := by omega
  have hdiv : a.natAbs / b.natAbs = a.natAbs := by
    have := Int.natAbs_tdiv a b
    rw [hq] at this
    have h2 : a.natAbs = 2 ^ 63 := by omega
    have h3 : ((2 : Int) ^ 63).natAbs = 2 ^ 63 := by norm_num
    rw [h3] at this
    show a.natAbs.div b.natAbs = a.natAbs
    omega
  have hb1 : b.natAbs = 1 := by
    rcases Nat.lt_or_ge b.natAbs 2 with h | h
    · have hpos : b.natAbs ≠ 0 := by
        intro h0
        rw [h0, Nat.div_zero] at hdiv
        omega
      omega
    · have : a.natAbs / b.natAbs ≤ a.natAbs / 2 := Nat.div_le_div_left h (by norm_num)
      omega
  rcases Int.natAbs_eq b with hb | hb
  · rw [hb1] at hb
    rw [hb] at hq
    simp at hq
    omega
  · rw [hb1] at hb
    exact hov ⟨ha, by simpa using hb⟩

theorem toSigned_range (x : Nat) : -(2 ^ 63 : Int) ≤ toSigned x ∧ toSigned x < 2 ^ 63 := by
  unfold toSigned
  split <;> simp only [WORD] at * <;> omega

theorem toSigned_ofSigned (i : Int) (hlo : -(2 ^ 63 : Int) ≤ i) (hhi : i < 2 ^ 63) :
    toSigned (ofSigned i) = i := by
  unfold toSigned ofSigned
  split <;> simp only [WORD] at * <;> omega

/-- Claim C14 fails as stated.  With first and third operand the same
register, `DU 1 2 1` and `D 1 2 1` on `7 / 2` leave the remainder 1 in the
first register, not the quotient 3.  And `D` on `-2^63 / -1`, whose divisor
is not zero, leaves no state at all: the quotient `2^63` is no `RegTypeS`. -/
theorem divide_aliased_or_overflowing :
    (decodeBody (divAliasDemo 0xC2 7 2)).map (Option.map fun w => w.registers 1)
      = .ok (some 1) ∧
    (decodeBody (divAliasDemo 0xC1 7 2)).map (Option.map fun w => w.registers 1)
      = .ok (some 1) ∧
    (decodeBody (threeRegDemo 0xC1 (2 ^ 63) (2 ^ 64 - 1) 0)).map
        (Option.map fun w => w.registers 1)
      = .error .divideOverflow := by
  refine ⟨?_, ?_, ?_⟩ <;> rfl

/-- Claim C14 as amended: when the first and third operand are different
registers and the divisor is not zero, `DU` leaves the quotient in the first
register and the remainder in the third, and so does `D` (signed values,
truncating division) unless the division is `-2^63 / -1`; in both cases
quotient times divisor plus remainder is the dividend. -/
theorem divide_with_remainder (w : World) (op f s t : Nat) (hsize : w.mem.length < 2 ^ 64)
    (hop : w.mem[w.PC]? = some op) (hf : w.mem[w.PC + 1]? = some f)
    (hs : w.mem[w.PC + 2]? = some s) (ht : w.mem[w.PC + 3]? = some t) (hft : f ≠ t) :
    (op = 0xC2 → w.registers s ≠ 0 →
      ∃ w', decodeBody w = .ok (some w') ∧
        w'.registers f = w.registers f / w.registers s ∧
        w'.registers t = w.registers f % w.registers s ∧
        w'.registers f * w.registers s + w'.registers t = w.registers f) ∧
    (op = 0xC1 → toSigned (w.registers s) ≠ 0 →
      ¬(toSigned (w.registers f) = -(2 ^ 63 : Int) ∧ toSigned (w.registers s) = -1) →
      ∃ w', decodeBody w = .ok (some w') ∧
        toSigned (w'.registers f)
          = Int.tdiv (toSigned (w.registers f)) (toSigned (w.registers s)) ∧
        toSigned (w'.registers t)
          = Int.tmod (toSigned (w.registers f)) (toSigned (w.registers s)) ∧
        toSigned (w'.registers f) * toSigned (w.registers s) + toSigned (w'.registers t)
          = toSigned (w.registers f)) := by
  have hlen : w.PC + 3 < w.mem.length := (List.getElem?_eq_some_iff.1 ht).1
  have hm : ∀ k, k < 5 → (w.PC + k) % WORD = w.PC + k := fun k hk =>
    Nat.mod_eq_of_lt (by simp only [WORD]; omega)
  have htf : t ≠ f := fun h => hft h.symm
  constructor
  · intro h hb
    subst h
    have e1 : (194 &&& AllMask = OneMask) = False := by decide
    have e2 : (194 &&& AllMask = TwoMask) = False := by decide
    have e3 : (194 &&& AllMask = FourMask) = True := by decide
    refine ⟨(({ w with PC := w.PC + 4 }).setReg f (w.registers f / w.registers s)).setReg t
      (w.registers f % w.registers s), ?_, ?_, ?_, ?_⟩
    · simp only [decodeBody, decodeFour, World.readMem, hop, hf, hs, ht, hm 1 (by norm_num),
        hm 2 (by norm_num), hm 3 (by norm_num), hm 4 (by norm_num), bind, Except.bind]
      simp only [e1, e2, e3, if_true, if_false, hb, Functor.map, Except.map, pure,
        Except.pure, OfNat.ofNat_ne_zero]
    · simp [World.setReg, hft]
    · simp [World.setReg]
    · simp only [World.setReg, if_true, hft, if_false]
      exact Nat.div_add_mod' _ _
  · intro h hb hov
    subst h
    have e1 : (193 &&& AllMask = OneMask) = False := by decide
    have e2 : (193 &&& AllMask = TwoMask) = False := by decide
    have e3 : (193 &&& AllMask = FourMask) = True := by decide
    obtain ⟨a1, a2⟩ := toSigned_range (w.registers f)
    obtain ⟨q1, q2⟩ := tdiv_range _ (toSigned (w.registers s)) a1 a2 hov
    obtain ⟨m1, m2⟩ := tmod_between (toSigned (w.registers f)) (toSigned (w.registers s))
    have r1 : -(2 ^ 63 : Int) ≤ Int.tmod (toSigned (w.registers f)) (toSigned (w.registers s)) := by
      rcases le_total 0 (toSigned (w.registers f)) with h | h
      · have := (m1 h).1; omega
      · have := (m2 h).1; omega
    have r2 : Int.tmod (toSigned (w.registers f)) (toSigned (w.registers s)) < 2 ^ 63 := by
      rcases le_total 0 (toSigned (w.registers f)) with h | h
      · have := (m1 h).2; omega
      · have := (m2 h).2; omega
    refine ⟨(({ w with PC := w.PC + 4 }).setReg f
      (ofSigned (Int.tdiv (toSigned (w.registers f)) (toSigned (w.registers s))))).setReg t
      (ofSigned (Int.tmod (toSigned (w.registers f)) (toSigned (w.registers s)))),
      ?_, ?_, ?_, ?_⟩
    · simp only [decodeBody, decodeFour, World.readMem, hop, hf, hs, ht, hm 1 (by norm_num),
        hm 2 (by norm_num), hm 3 (by norm_num), hm 4 (by norm_num), bind, Except.bind]
      simp only [e1, e2, e3, if_true, if_false, hb, hov, Functor.map, Except.map, pure,
        Except.pure, OfNat.ofNat_ne_zero]
    · simp only [World.setReg, if_true, hft, if_false]
      exact toSigned_ofSigned _ q1 q2
    · simp only [World.setReg, if_true]
      exact toSigned_ofSigned _ r1 r2
    · simp only [World.setReg, if_true, hft, if_false]
      rw [toSigned_ofSigned _ q1 q2, toSigned_ofSigned _ r1 r2]
      exact Int.tdiv_add_tmod' _ _

/-- Claim C14 as amended, on `DU 1 2 3` with `7 / 2` and on `D 1 2 3` with
`-7 / 2`. -/
theorem divide_with_remainder_witness :
    (∃ w', decodeBody (threeRegDemo 0xC2 7 2 0) = .ok (some w') ∧
      w'.registers 1 = 7 / 2 ∧ w'.registers 3 = 7 % 2 ∧
      w'.registers 1 * 2 + w'.registers 3 = 7) ∧
    (∃ w', decodeBody (threeRegDemo 0xC1 (2 ^ 64 - 7) 2 0) = .ok (some w') ∧
      toSigned (w'.registers 1) = Int.tdiv (-7) 2 ∧
      toSigned (w'.registers 3) = Int.tmod (-7) 2 ∧
      toSigned (w'.registers 1) * 2 + toSigned (w'.registers 3) = -7) :=
  ⟨(divide_with_remainder (threeRegDemo 0xC2 7 2 0) 0xC2 1 2 3 (by decide) (by decide)
      (by decide) (by decide) (by decide) (by decide)).1 rfl (by decide),
   (divide_with_remainder (threeRegDemo 0xC1 (2 ^ 64 - 7) 2 0) 0xC1 1 2 3 (by decide)
      (by decide) (by decide) (by decide) (by decide) (by decide)).2 rfl (by decide)
      (by decide)⟩

/-! ## Block load -/

theorem getAddress_congr (w w' : World) (a : Nat) (h : w'.mem = w.mem) :
    w'.getAddress a = w.getAddress a := by
  simp only [World.getAddress, World.readMem, h]

theorem getAddress_ok (w : World) (a : Nat) (h : a + 8 ≤ w.mem.length)
    (hs : w.mem.length < 2 ^ 64) : ∃ x, w.getAddress a = .ok x := by
  have hm0 : a % WORD = a := Nat.mod_eq_of_lt (by simp only [WORD]; omega)
  have hm : ∀ k, k < 8 → (a + k) % WORD = a + k := fun k hk =>
    Nat.mod_eq_of_lt (by simp only [WORD]; omega)
  have hr0 : w.readMem a = .ok (w.mem.getD a 0) := by
    rw [readMem_of_lt w _ (by omega), List.getD_eq_getElem _ _ (by omega)]
  have hr : ∀ k, k < 8 → w.readMem (a + k) = .ok (w.mem.getD (a + k) 0) := fun k hk => by
    rw [readMem_of_lt w _ (by omega), List.getD_eq_getElem _ _ (by omega)]
  simp [World.getAddress, range8, List.foldlM, hm0, hm, hr0, hr, bind, Except.bind, pure,
    Except.pure]

theorem foldlM_setReg (f : World → Nat → Except Fault World) (P : World → Prop) (x : Nat)
    (hf : ∀ w i, P w → f w i = .ok (w.setReg i x))
    (hP : ∀ w i, P w → P (w.setReg i x)) (l : List Nat) (w : World) (hw : P w) :
    l.foldlM f w
      = .ok { w with registers := fun i => if i ∈ l then x else w.registers i } := by
  induction l generalizing w with
  | nil => simp [pure, Except.pure]
  | cons j l ih =>
    rw [List.foldlM_cons, hf w j hw]
    simp only [bind, Except.bind]
    rw [ih (w.setReg j x) (hP w j hw)]
    congr 2
    funext i
    simp only [World.setReg, List.mem_cons]
    by_cases h1 : i ∈ l <;> by_cases h2 : i = j <;> simp [h1, h2]

theorem lsm_loop (val x : Nat) (l : List Nat) (w : World) (hx : w.getAddress val = .ok x) :
    l.foldlM (fun w i => do
        let x ← w.getAddress val
        pure (w.setReg i x)) w
      = .ok { w with registers := fun i => if i ∈ l then x else w.registers i } := by
  apply foldlM_setReg _ (fun w => w.getAddress val = .ok x) x _ _ l w hx
  · intro w i h
    simp only [h, bind, Except.bind, pure, Except.pure]
  · intro w i h
    exact (getAddress_congr w (w.setReg i x) val rfl).trans h

/-- Claim C16: `LSM first second third` with the word at `A = R[third]`
inside memory reads `getAddress(A)` once per register and stores that same
value in every register `first .. second`; the other registers and memory
keep their values, `PC` moves forward by 4, and with `first > second` no
register changes. -/
theorem decodeBody_LSM (w : World) (f s t : Nat) (hsize : w.mem.length < 2 ^ 64)
    (hop : w.mem[w.PC]? = some 0xC4) (hf : w.mem[w.PC + 1]? = some f)
    (hs : w.mem[w.PC + 2]? = some s) (ht : w.mem[w.PC + 3]? = some t)
    (hA : w.registers t + 8 ≤ w.mem.length) :
    ∃ x, w.getAddress (w.registers t) = .ok x ∧
      decodeBody w = .ok (some { w with
        PC := w.PC + 4,
        registers := fun i => if f ≤ i ∧ i ≤ s then x else w.registers i }) ∧
      (s < f → decodeBody w = .ok (some { w with PC := w.PC + 4 })) := by
  have hlen : w.PC + 3 < w.mem.length := (List.getElem?_eq_some_iff.1 ht).1
  have hm : ∀ k, k < 5 → (w.PC + k) % WORD = w.PC + k := fun k hk =>
    Nat.mod_eq_of_lt (by simp only [WORD]; omega)
  obtain ⟨x, hx⟩ := getAddress_ok w (w.registers t) hA hsize
  have hx' : ({ w with PC := w.PC + 4 } : World).getAddress (w.registers t) = .ok x :=
    (getAddress_congr w { w with PC := w.PC + 4 } (w.registers t) rfl).trans hx
  have e1 : (196 &&& AllMask = OneMask) = False := by decide
  have e2 : (196 &&& AllMask = TwoMask) = False := by decide
  have e3 : (196 &&& AllMask = FourMask) = True := by decide
  have hmem : ∀ i, i ∈ regRange f s ↔ f ≤ i ∧ i ≤ s := fun i => by
    simp only [regRange, List.mem_range']
    constructor
    · rintro ⟨k, hk, rfl⟩; omega
    · rintro ⟨h1, h2⟩; exact ⟨i - f, by omega, by omega⟩
  have hbody : decodeBody w = .ok (some { w with
        PC := w.PC + 4,
        registers := fun i => if f ≤ i ∧ i ≤ s then x else w.registers i }) := by
    simp only [decodeBody, decodeFour, World.readMem, hop, hf, hs, ht, hm 1 (by norm_num),
      hm 2 (by norm_num), hm 3 (by norm_num), hm 4 (by norm_num), bind, Except.bind]
    simp only [e1, e2, e3, if_true, if_false, OfNat.ofNat_ne_zero]
    have hl := lsm_loop (w.registers t) x (regRange f s) _ hx'
    simp only [bind, Except.bind] at hl
    rw [hl]
    simp only [hmem, Functor.map, Except.map]
  refine ⟨x, hx, hbody, fun hlt => ?_⟩
  rw [hbody]
  congr 3
  funext i
  have : ¬(f ≤ i ∧ i ≤ s) := by omega
  simp [this]

/-- Claim C16 on `LSM 1 2 3` with `R[3] = 4`: registers 1 and 2 both receive
the word read at address 4. -/
theorem decodeBody_LSM_witness :
    ∃ x, (threeRegDemo 0xC4 0 0 4).getAddress 4 = .ok x ∧
      decodeBody (threeRegDemo 0xC4 0 0 4) = .ok (some { threeRegDemo 0xC4 0 0 4 with
        PC := 0 + 4,
        registers := fun i =>
          if 1 ≤ i ∧ i ≤ 2 then x else (threeRegDemo 0xC4 0 0 4).registers i }) ∧
      (2 < 1 → decodeBody (threeRegDemo 0xC4 0 0 4)
        = .ok (some { threeRegDemo 0xC4 0 0 4 with PC := 0 + 4 })) :=
  decodeBody_LSM (threeRegDemo 0xC4 0 0 4) 1 2 3 (by decide) (by decide) (by decide)
    (by decide) (by decide) (by decide)

/-! ## What an instruction leaves of `PC` and `CR` -/

theorem decodeBody_dispatch (w : World) (b : Nat) (hop : w.mem[w.PC]? = some b) (hnz : b ≠ 0) :
    decodeBody w =
      if b &&& AllMask = OneMask then some <$> decodeOne w b
      else if b &&& AllMask = TwoMask then some <$> decodeTwo w b
      else if b &&& AllMask = FourMask then some <$> decodeFour w b
      else if b &&& AllMask = ImmMask then some <$> decodeImm w b
      else some <$> decodeThree w b := by
  simp [decodeBody, World.readMem, hop, bind, Except.bind, hnz]

theorem writeMem_frame (w w' : World) (a b : Nat) (h : w.writeMem a b = .ok w') :
    w'.PC = w.PC ∧ w'.CR = w.CR := by
  unfold World.writeMem at h
  split at h
  · cases h; exact ⟨rfl, rfl⟩
  · cases h

theorem foldlM_frame (f : World → Nat → Except Fault World)
    (hf : ∀ w i w', f w i = .ok w' → w'.PC = w.PC ∧ w'.CR = w.CR)
    (l : List Nat) (w w' : World) (h : l.foldlM f w = .ok w') :
    w'.PC = w.PC ∧ w'.CR = w.CR := by
  induction l generalizing w with
  | nil =>
    simp only [List.foldlM, pure, Except.pure] at h
    cases h; exact ⟨rfl, rfl⟩
  | cons j l ih =>
    rw [List.foldlM_cons] at h
    cases hj : f w j with
    | error e => rw [hj] at h; cases h
    | ok w1 =>
      rw [hj] at h
      obtain ⟨h1, h2⟩ := hf w j w1 hj
      obtain ⟨h3, h4⟩ := ih w1 h
      exact ⟨h3.trans h1, h4.trans h2⟩

theorem setAddress_frame (w w' : World) (a v : Nat) (h : w.setAddress a v = .ok w') :
    w'.PC = w.PC ∧ w'.CR = w.CR :=
  foldlM_frame _ (fun w _ w' hw => writeMem_frame w w' _ _ hw) _ w w' h

theorem push_frame (w w' : World) (v : Nat) (h : w.push v = .ok w') :
    w'.PC = w.PC ∧ w'.CR = w.CR := by
  unfold World.push at h
  exact setAddress_frame { w with SP := (w.SP + WORD - 8) % WORD } w' _ v h

theorem pop_frame (w w' : World) (r : Nat) (h : w.pop = .ok (r, w')) :
    w'.PC = w.PC ∧ w'.CR = w.CR := by
  unfold World.pop at h
  cases hg : w.getAddress w.SP with
  | error e => simp [hg, bind, Except.bind] at h
  | ok x =>
    simp only [hg, bind, Except.bind, pure, Except.pure, Except.ok.injEq, Prod.mk.injEq] at h
    obtain ⟨_, rfl⟩ := h
    exact ⟨rfl, rfl⟩

theorem runInterrupt_frame (w w' : World) (n : Nat) (h : runInterrupt w n = .ok w') :
    w'.CR = w.CR ∧ (n = 1 → w'.PC = w.PC) := by
  unfold runInterrupt at h
  split at h
  · split at h
    · simp only [pure, Except.pure, Except.ok.injEq] at h
      subst h
      exact ⟨rfl, fun _ => rfl⟩
    · cases h
  · cases hp : w.push w.PC with
    | error e => simp [hp, bind, Except.bind] at h
    | ok w1 =>
      cases hg : w1.getInterrupt n with
      | error e => simp [hp, hg, bind, Except.bind] at h
      | ok pc =>
        simp only [hp, hg, bind, Except.bind, pure, Except.pure, Except.ok.injEq] at h
        subst h
        exact ⟨(push_frame w w1 _ hp).2, fun h1 => absurd h1 ‹_›⟩

theorem decodeOne_frame (w w' : World) (b : Nat) (h : decodeOne w b = .ok w') :
    w'.CR = w.CR ∧ (b ≠ 0xF2 → w'.PC = (w.PC + 1) % WORD) := by
  unfold decodeOne at h
  split at h
  · simp only [pure, Except.pure, Except.ok.injEq] at h
    subst h; exact ⟨rfl, fun _ => rfl⟩
  · refine ⟨?_, fun hne => absurd rfl hne⟩
    cases hp : World.pop { w.print ("OP " ++ toString 242 ++ "\n") with
        PC := ((w.print ("OP " ++ toString 242 ++ "\n")).PC + 1) % WORD } with
    | error e => simp [hp, bind, Except.bind] at h
    | ok p =>
      obtain ⟨r, w1⟩ := p
      simp only [hp, bind, Except.bind, pure, Except.pure, Except.ok.injEq] at h
      subst h
      exact (pop_frame _ w1 r hp).2
  · simp only [pure, Except.pure, Except.ok.injEq] at h
    subst h; exact ⟨rfl, fun _ => rfl⟩
  · simp only [pure, Except.pure, Except.ok.injEq] at h
    subst h; exact ⟨rfl, fun _ => rfl⟩
  · cases h

theorem decodeTwo_frame (w w' : World) (b : Nat) (h : decodeTwo w b = .ok w') :
    (b ≠ 0x8B → w'.CR = w.CR) ∧
    ((b = 0x81 → w.mem[(w.PC + 1) % WORD]? = some 1) → w'.PC = (w.PC + 2) % WORD) := by
  unfold decodeTwo at h
  cases hr : w.readMem ((w.PC + 1) % WORD) with
  | error e => simp [hr, bind, Except.bind] at h
  | ok reg1 =>
    simp only [hr, bind, Except.bind] at h
    split at h
    · obtain ⟨h1, h2⟩ := runInterrupt_frame _ w' reg1 h
      refine ⟨fun _ => h1, fun hint => ?_⟩
      have h3 := hint rfl
      simp only [World.readMem, h3, Except.ok.injEq] at hr
      exact h2 hr.symm
    all_goals first
      | (simp only [pure, Except.pure, Except.ok.injEq] at h
         subst h
         simp [World.setReg])
      | skip
    · obtain ⟨h1, h2⟩ := push_frame _ w' _ h
      exact ⟨fun _ => h2, fun _ => h1⟩
    · cases hp : World.pop { w with PC := (w.PC + 2) % WORD } with
      | error e => simp [hp] at h
      | ok p =>
        obtain ⟨r, w1⟩ := p
        simp only [hp, pure, Except.pure, Except.ok.injEq] at h
        subst h
        obtain ⟨h1, h2⟩ := pop_frame _ w1 r hp
        exact ⟨fun _ => h2, fun _ => h1⟩
    · cases h

theorem branchTest_PC (w : World) (p v : Nat) :
    branchTest { w with PC := p } v = branchTest w v := rfl

theorem decodeThree_frame (w w' : World) (b : Nat) (h : decodeThree w b = .ok w') :
    (∃ m, w'.CR = w.CR &&& m) ∧
    ((b = 0x0D ∨ b = 0x0E → ∀ v, branchTest w v = false) → w'.PC = (w.PC + 3) % WORD) := by
  have hself : ∃ m, w.CR = w.CR &&& m := ⟨w.CR, (Nat.and_self _).symm⟩
  unfold decodeThree at h
  cases hr1 : w.readMem ((w.PC + 1) % WORD) with
  | error e => simp [hr1, bind, Except.bind] at h
  | ok reg1 =>
  cases hr2 : w.readMem ((w.PC + 2) % WORD) with
  | error e => simp [hr1, hr2, bind, Except.bind] at h
  | ok reg2 =>
    simp only [hr1, hr2, bind, Except.bind] at h
    split at h
    all_goals first
      | (simp only [pure, Except.pure, Except.ok.injEq] at h
         subst h
         exact ⟨hself, fun _ => rfl⟩)
      | skip
    · -- LS
      cases hb : World.readMem { w with PC := (w.PC + 3) % WORD } (w.registers reg2) with
      | error e => simp [hb] at h
      | ok x =>
        simp only [hb, pure, Except.pure, Except.ok.injEq] at h
        subst h
        exact ⟨hself, fun _ => rfl⟩
    · -- ST
      obtain ⟨h1, h2⟩ := writeMem_frame _ w' _ _ h
      exact ⟨⟨w.CR, by rw [h2]; exact (Nat.and_self _).symm⟩, fun _ => h1⟩
    · -- B
      split at h
      · rename_i ht
        refine ⟨?_, fun hbr => ?_⟩
        · simp only [pure, Except.pure, Except.ok.injEq] at h
          subst h; exact hself
        · rw [branchTest_PC, hbr (Or.inl rfl)] at ht
          cases ht
      · simp only [pure, Except.pure, Except.ok.injEq] at h
        subst h
        exact ⟨hself, fun _ => rfl⟩
    · -- BAS
      split at h
      · rename_i ht
        refine ⟨?_, fun hbr => ?_⟩
        · cases hp : World.push { w with PC := (w.PC + 3) % WORD } ((w.PC + 3) % WORD) with
          | error e => simp [hp] at h
          | ok w1 =>
            simp only [hp, pure, Except.pure, Except.ok.injEq] at h
            subst h
            exact ⟨w.CR, by
              show w1.CR = _
              rw [(push_frame _ w1 _ hp).2]; exact (Nat.and_self _).symm⟩
        · rw [branchTest_PC, hbr (Or.inr rfl)] at ht
          cases ht
      · simp only [pure, Except.pure, Except.ok.injEq] at h
        subst h
        exact ⟨hself, fun _ => rfl⟩
    · -- CP
      split at h
      · simp only [pure, Except.pure, Except.ok.injEq] at h
        subst h; exact ⟨⟨_, rfl⟩, fun _ => rfl⟩
      · split at h
        · simp only [pure, Except.pure, Except.ok.injEq] at h
          subst h; exact ⟨⟨_, rfl⟩, fun _ => rfl⟩
        · split at h
          · simp only [pure, Except.pure, Except.ok.injEq] at h
            subst h; exact ⟨⟨_, rfl⟩, fun _ => rfl⟩
          · simp only [pure, Except.pure, Except.ok.injEq] at h
            subst h; exact ⟨hself, fun _ => rfl⟩
    · -- CPU
      split at h
      · simp only [pure, Except.pure, Except.ok.injEq] at h
        subst h; exact ⟨⟨_, rfl⟩, fun _ => rfl⟩
      · split at h
        · simp only [pure, Except.pure, Except.ok.injEq] at h
          subst h; exact ⟨⟨_, rfl⟩, fun _ => rfl⟩
        · split at h
          · simp only [pure, Except.pure, Except.ok.injEq] at h
            subst h; exact ⟨⟨_, rfl⟩, fun _ => rfl⟩
          · simp only [pure, Except.pure, Except.ok.injEq] at h
            subst h; exact ⟨hself, fun _ => rfl⟩
    · cases h

theorem lsm_body_frame (val : Nat) (w : World) (i : Nat) (w' : World)
    (h : (do
        let x ← w.getAddress val
        pure (w.setReg i x) : Except Fault World) = .ok w') :
    w'.PC = w.PC ∧ w'.CR = w.CR := by
  cases hg : w.getAddress val with
  | error e => simp [hg, bind, Except.bind] at h
  | ok x =>
    simp only [hg, bind, Except.bind, pure, Except.pure, Except.ok.injEq] at h
    subst h
    exact ⟨rfl, rfl⟩

theorem decodeFour_frame (w w' : World) (b : Nat) (h : decodeFour w b = .ok w') :
    w'.CR = w.CR ∧
    ((b = 0xC3 → ∀ v, branchTest w v = false) → w'.PC = (w.PC + 4) % WORD) := by
  unfold decodeFour at h
  cases hr1 : w.readMem ((w.PC + 1) % WORD) with
  | error e => simp [hr1, bind, Except.bind] at h
  | ok reg1 =>
  cases hr2 : w.readMem ((w.PC + 2) % WORD) with
  | error e => simp [hr1, hr2, bind, Except.bind] at h
  | ok reg2 =>
  cases hr3 : w.readMem ((w.PC + 3) % WORD) with
  | error e => simp [hr1, hr2, hr3, bind, Except.bind] at h
  | ok reg3 =>
    simp only [hr1, hr2, hr3] at h
    change (match b with
      | 0xC1 => _
      | 0xC2 => _
      | 0xC3 => _
      | 0xC4 => _
      | 0xC5 => _
      | 0xC6 => _
      | 0xC7 => _
      | _ => _) = _ at h
    split at h
    · -- D
      split at h
      · cases h
      · split at h
        · cases h
        · simp only [pure, Except.pure, Except.ok.injEq] at h
          subst h; exact ⟨rfl, fun _ => rfl⟩
    · -- DU
      split at h
      · cases h
      · simp only [pure, Except.pure, Except.ok.injEq] at h
        subst h; exact ⟨rfl, fun _ => rfl⟩
    · -- BAL
      split at h
      · rename_i ht
        refine ⟨?_, fun hbr => ?_⟩
        · simp only [pure, Except.pure, Except.ok.injEq] at h
          subst h; rfl
        · rw [branchTest_PC, hbr rfl] at ht
          cases ht
      · simp only [pure, Except.pure, Except.ok.injEq] at h
        subst h; exact ⟨rfl, fun _ => rfl⟩
    · -- LSM
      obtain ⟨h1, h2⟩ := foldlM_frame _ (lsm_body_frame _) _ _ w' h
      exact ⟨h2, fun _ => h1⟩
    · -- STM
      obtain ⟨h1, h2⟩ := foldlM_frame _ (fun w _ w' hw => setAddress_frame w w' _ _ hw) _ _ w' h
      exact ⟨h2, fun _ => h1⟩
    · -- LUM
      simp only [bind, Except.bind] at h
      split at h
      · cases h
      · simp only [pure, Except.pure, Except.ok.injEq] at h
        subst h; exact ⟨rfl, fun _ => rfl⟩
    · -- SUM
      simp only [bind, Except.bind] at h
      split at h
      · cases h
      · obtain ⟨h1, h2⟩ := setAddress_frame _ w' _ _ h
        exact ⟨h2, fun _ => h1⟩
    · cases h

theorem decodeImm_frame (w w' : World) (b : Nat) (h : decodeImm w b = .ok w') :
    w'.CR = w.CR ∧ w'.PC = ((w.PC + 2) % WORD + 8) % WORD := by
  unfold decodeImm at h
  simp only [bind, Except.bind] at h
  split at h
  · cases h
  · split at h
    · cases h
    · split at h
      · simp only [pure, Except.pure, Except.ok.injEq] at h
        subst h; exact ⟨rfl, rfl⟩
      · cases h

/-! ## Instructions that only touch registers -/

theorem decodeOne_total (w : World) (b : Nat) (hb : b = 0xF1 ∨ b = 0xF3 ∨ b = 0xF4) :
    ∃ w', decodeOne w b = .ok w' := by
  unfold decodeOne
  rcases hb with rfl | rfl | rfl <;> exact ⟨_, rfl⟩

theorem decodeTwo_total (w : World) (b : Nat) (hr : (w.PC + 1) % WORD < w.mem.length)
    (hb : b = 0x82 ∨ b = 0x83 ∨ b = 0x84 ∨ b = 0x85 ∨ b = 0x86 ∨ b = 0x89 ∨ b = 0x8A ∨
      b = 0x8B) :
    ∃ w', decodeTwo w b = .ok w' := by
  unfold decodeTwo
  rw [readMem_of_lt w _ hr]
  rcases hb with rfl | rfl | rfl | rfl | rfl | rfl | rfl | rfl <;> exact ⟨_, rfl⟩

theorem decodeThree_total (w : World) (b : Nat) (hr1 : (w.PC + 1) % WORD < w.mem.length)
    (hr2 : (w.PC + 2) % WORD < w.mem.length)
    (hb : b = 0x01 ∨ b = 0x04 ∨ b = 0x05 ∨ b = 0x06 ∨ b = 0x07 ∨ b = 0x08 ∨ b = 0x09 ∨
      b = 0x0A ∨ b = 0x0B ∨ b = 0x0C ∨ b = 0x0D ∨ b = 0x0F ∨ b = 0x10 ∨ b = 0x11 ∨
      b = 0x12) :
    ∃ w', decodeThree w b = .ok w' := by
  unfold decodeThree
  rw [readMem_of_lt w _ hr1, readMem_of_lt w _ hr2]
  rcases hb with rfl | rfl | rfl | rfl | rfl | rfl | rfl | rfl | rfl | rfl | rfl | rfl | rfl
    | rfl | rfl
  all_goals simp only [bind, Except.bind, pure, Except.pure]
  all_goals first
    | exact ⟨_, rfl⟩
    | (split
       all_goals first
         | exact ⟨_, rfl⟩
         | (split
            all_goals first
              | exact ⟨_, rfl⟩
              | (split <;> exact ⟨_, rfl⟩)))

theorem decodeFour_total (w : World) (b : Nat) (hr1 : (w.PC + 1) % WORD < w.mem.length)
    (hr2 : (w.PC + 2) % WORD < w.mem.length) (hr3 : (w.PC + 3) % WORD < w.mem.length)
    (hb : b = 0xC1 ∨ b = 0xC2 ∨ b = 0xC3)
    (hdu : b = 0xC2 → w.registers (w.mem.getD ((w.PC + 2) % WORD) 0) ≠ 0)
    (hd : b = 0xC1 → toSigned (w.registers (w.mem.getD ((w.PC + 2) % WORD) 0)) ≠ 0 ∧
      ¬(toSigned (w.registers (w.mem.getD ((w.PC + 1) % WORD) 0)) = -(2 ^ 63 : Int) ∧
        toSigned (w.registers (w.mem.getD ((w.PC + 2) % WORD) 0)) = -1)) :
    ∃ w', decodeFour w b = .ok w' := by
  rw [List.getD_eq_getElem _ _ hr2] at hdu hd
  rw [List.getD_eq_getElem _ _ hr1] at hd
  unfold decodeFour
  rw [readMem_of_lt w _ hr1, readMem_of_lt w _ hr2, readMem_of_lt w _ hr3]
  rcases hb with rfl | rfl | rfl
  · obtain ⟨h1, h2⟩ := hd rfl
    simp only [bind, Except.bind, pure, Except.pure]
    rw [if_neg h1, if_neg h2]
    exact ⟨_, rfl⟩
  · have h1 := hdu rfl
    simp only [bind, Except.bind, pure, Except.pure]
    rw [if_neg h1]
    exact ⟨_, rfl⟩
  · simp only [bind, Except.bind, pure, Except.pure]
    split <;> exact ⟨_, rfl⟩

theorem decodeImm_total (w : World) (hlen : w.PC + 10 ≤ w.mem.length)
    (hsize : w.mem.length < 2 ^ 64) :
    ∃ w', decodeImm w 0xE1 = .ok w' := by
  have hm : ∀ k, k < 11 → (w.PC + k) % WORD = w.PC + k := fun k hk =>
    Nat.mod_eq_of_lt (by simp only [WORD]; omega)
  obtain ⟨imm, himm⟩ := readImm_ok { w with PC := (w.PC + 2) % WORD }
    (by show (w.PC + 2) % WORD + 8 ≤ w.mem.length; rw [hm 2 (by norm_num)]; omega) hsize
  unfold decodeImm
  rw [readMem_of_lt w _ (by rw [hm 1 (by norm_num)]; omega)]
  simp only [bind, Except.bind, himm]
  exact ⟨_, rfl⟩

/-- Every opcode of `registerOnly`, with its instruction bytes inside memory
and, for `D` and `DU`, a divisor and dividend the division is defined for,
is executed to the end: the step returns a state. -/
theorem registerOnly_step (w : World) (b : Nat) (hsize : w.mem.length < 2 ^ 64)
    (hop : w.mem[w.PC]? = some b) (hb : b ∈ registerOnly)
    (hlen : w.PC + width b ≤ w.mem.length)
    (hdu : b = 0xC2 → w.registers (w.mem.getD (w.PC + 2) 0) ≠ 0)
    (hd : b = 0xC1 → toSigned (w.registers (w.mem.getD (w.PC + 2) 0)) ≠ 0 ∧
      ¬(toSigned (w.registers (w.mem.getD (w.PC + 1) 0)) = -(2 ^ 63 : Int) ∧
        toSigned (w.registers (w.mem.getD (w.PC + 2) 0)) = -1)) :
    ∃ w', decodeBody w = .ok (some w') := by
  have hm : ∀ k, k ≤ width b → (w.PC + k) % WORD = w.PC + k := fun k hk =>
    Nat.mod_eq_of_lt (by simp only [WORD]; omega)
  have hlt : ∀ k, k < width b → (w.PC + k) % WORD < w.mem.length := fun k hk => by
    rw [hm k (by omega)]; omega
  simp only [registerOnly, List.mem_cons, List.mem_singleton, List.not_mem_nil, or_false] at hb
  rcases hb with hb | hb | hb | hb | hb | hb | hb | hb | hb | hb | hb | hb | hb | hb | hb | hb
    | hb | hb | hb | hb | hb | hb | hb | hb | hb | hb | hb | hb | hb | hb
  all_goals first
    | (obtain ⟨w', hw⟩ := decodeOne_total w b (by simp [hb])
       exact ⟨w', by
        rw [decodeBody_dispatch w b hop (by rw [hb]; decide), if_pos (by rw [hb]; decide), hw]
        rfl⟩)
    | (obtain ⟨w', hw⟩ := decodeTwo_total w b (hlt 1 (by rw [hb]; decide)) (by simp [hb])
       exact ⟨w', by
        rw [decodeBody_dispatch w b hop (by rw [hb]; decide), if_neg (by rw [hb]; decide),
          if_pos (by rw [hb]; decide), hw]
        rfl⟩)
    | (obtain ⟨w', hw⟩ := decodeThree_total w b (hlt 1 (by rw [hb]; decide))
         (hlt 2 (by rw [hb]; decide)) (by simp [hb])
       exact ⟨w', by
        rw [decodeBody_dispatch w b hop (by rw [hb]; decide), if_neg (by rw [hb]; decide),
          if_neg (by rw [hb]; decide), if_neg (by rw [hb]; decide),
          if_neg (by rw [hb]; decide), hw]
        rfl⟩)
    | (obtain ⟨w', hw⟩ := decodeFour_total w b (hlt 1 (by rw [hb]; decide))
         (hlt 2 (by rw [hb]; decide)) (hlt 3 (by rw [hb]; decide)) (by simp [hb])
         (by rw [hm 2 (by rw [hb]; decide)]; exact hdu)
         (by rw [hm 2 (by rw [hb]; decide), hm 1 (by rw [hb]; decide)]; exact hd)
       exact ⟨w', by
        rw [decodeBody_dispatch w b hop (by rw [hb]; decide), if_neg (by rw [hb]; decide),
          if_neg (by rw [hb]; decide), if_pos (by rw [hb]; decide), hw]
        rfl⟩)
    | (subst hb
       obtain ⟨w', hw⟩ := decodeImm_total w hlen hsize
       exact ⟨w', by
        rw [decodeBody_dispatch w _ hop (by decide), if_neg (by decide), if_neg (by decide),
          if_neg (by decide), if_pos (by decide), hw]
        rfl⟩)

theorem ok_of_map_some (e : Except Fault World) (w' : World)
    (h : some <$> e = .ok (some w')) : e = .ok w' := by
  cases e with
  | error f => cases h
  | ok x =>
    simp only [Functor.map, Except.map, Except.ok.injEq, Option.some.injEq] at h
    rw [h]

/-- What one completed step does to `CR` and `PC`: unless the opcode is `SCR`,
`CR` can only lose bits; unless control is transferred (`RET`, a vectored
`INT`, a taken branch), `PC` moves forward by the width of the instruction. -/
theorem decodeBody_frame (w w' : World) (b : Nat) (hop : w.mem[w.PC]? = some b)
    (h : decodeBody w = .ok (some w')) :
    (b ≠ 0x8B → ∃ m, w'.CR = w.CR &&& m) ∧
    (b ≠ 0xF2 → (b = 0x81 → w.mem[(w.PC + 1) % WORD]? = some 1) →
      (b = 0x0D ∨ b = 0x0E ∨ b = 0xC3 → ∀ v, branchTest w v = false) →
      w'.PC = (w.PC + width b) % WORD) := by
  have hnz : b ≠ 0 := by
    intro h0
    subst h0
    simp [decodeBody, World.readMem, hop, bind, Except.bind, pure, Except.pure] at h
  rw [decodeBody_dispatch w b hop hnz] at h
  by_cases m1 : b &&& AllMask = OneMask
  · have hw : width b = 1 := by simp [width, m1]
    rw [if_pos m1] at h
    obtain ⟨h1, h2⟩ := decodeOne_frame w w' b (ok_of_map_some _ _ h)
    exact ⟨fun _ => ⟨w.CR, by rw [h1]; exact (Nat.and_self _).symm⟩,
      fun hret _ _ => by rw [hw]; exact h2 hret⟩
  by_cases m2 : b &&& AllMask = TwoMask
  · have hw : width b = 2 := by simp [width, m1, m2]
    rw [if_neg m1, if_pos m2] at h
    obtain ⟨h1, h2⟩ := decodeTwo_frame w w' b (ok_of_map_some _ _ h)
    exact ⟨fun hscr => ⟨w.CR, by rw [h1 hscr]; exact (Nat.and_self _).symm⟩,
      fun _ hint _ => by rw [hw]; exact h2 hint⟩
  by_cases m3 : b &&& AllMask = FourMask
  · have hw : width b = 4 := by simp [width, m1, m2, m3]
    rw [if_neg m1, if_neg m2, if_pos m3] at h
    obtain ⟨h1, h2⟩ := decodeFour_frame w w' b (ok_of_map_some _ _ h)
    exact ⟨fun _ => ⟨w.CR, by rw [h1]; exact (Nat.and_self _).symm⟩,
      fun _ _ hbr => by rw [hw]; exact h2 (fun e => hbr (Or.inr (Or.inr e)))⟩
  by_cases m4 : b &&& AllMask = ImmMask
  · have hw : width b = 10 := by simp [width, m1, m2, m3, m4]
    rw [if_neg m1, if_neg m2, if_neg m3, if_pos m4] at h
    obtain ⟨h1, h2⟩ := decodeImm_frame w w' b (ok_of_map_some _ _ h)
    exact ⟨fun _ => ⟨w.CR, by rw [h1]; exact (Nat.and_self _).symm⟩,
      fun _ _ _ => by rw [hw, h2]; simp only [WORD]; omega⟩
  · have hw : width b = 3 := by simp [width, m1, m2, m3, m4]
    rw [if_neg m1, if_neg m2, if_neg m3, if_neg m4] at h
    obtain ⟨h1, h2⟩ := decodeThree_frame w w' b (ok_of_map_some _ _ h)
    exact ⟨fun _ => h1,
      fun _ _ hbr => by
        rw [hw]
        exact h2 (fun e => hbr (e.elim Or.inl (fun e2 => Or.inr (Or.inl e2))))⟩

/-! ## Ordinary instructions -/

/-- Claim C15 fails as stated: `DU 1 2 3` and `D 1 2 3` with the divisor
`R[2] = 0` do not complete, they end in the division fault. -/
theorem divide_by_zero_faults :
    (decodeBody (threeRegDemo 0xC2 7 0 0)).map (Option.map World.PC) = .error .divideByZero ∧
    (decodeBody (threeRegDemo 0xC1 7 0 0)).map (Option.map World.PC) = .error .divideByZero := by
  constructor <;> rfl

/-- Claim C15 as amended: an instruction `L`, `A`, `AU`, `S`, `SU`, `M`, `MU`,
`AND`, `OR`, `XOR`, `SHL`, `SHR`, `NOT`, `CP`, `CPU`, `D`, `DU`, `B` or `BAL`
whose bytes lie inside memory completes without a fault for all register
contents, except that `DU` needs a divisor other than zero and `D` a divisor
other than zero and a division other than `-2^63 / -1`. -/
theorem ordinary_step_completes (w : World) (b : Nat) (hsize : w.mem.length < 2 ^ 64)
    (hop : w.mem[w.PC]? = some b) (hb : b ∈ ordinary)
    (hlen : w.PC + width b ≤ w.mem.length)
    (hdu : b = 0xC2 → w.registers (w.mem.getD (w.PC + 2) 0) ≠ 0)
    (hd : b = 0xC1 → toSigned (w.registers (w.mem.getD (w.PC + 2) 0)) ≠ 0 ∧
      ¬(toSigned (w.registers (w.mem.getD (w.PC + 1) 0)) = -(2 ^ 63 : Int) ∧
        toSigned (w.registers (w.mem.getD (w.PC + 2) 0)) = -1)) :
    ∃ w', decodeBody w = .ok (some w') :=
  registerOnly_step w b hsize hop
    ((by decide : ∀ x ∈ ordinary, x ∈ registerOnly) b hb) hlen hdu hd

/-- Claim C15 as amended, on `DU 1 2 3` with `R[1] = 7` and `R[2] = 2`. -/
theorem ordinary_step_completes_witness :
    ∃ w', decodeBody (threeRegDemo 0xC2 7 2 0) = .ok (some w') :=
  ordinary_step_completes (threeRegDemo 0xC2 7 2 0) 0xC2 (by decide) (by decide) (by decide)
    (by decide) (by decide) (by decide)

/-! ## The condition register without `SCR` -/

theorem trace_succ (n : Nat) (w : World) :
    trace (n + 1) w =
      if w.PC < w.mem_size then
        match decodeBody w with
        | .ok (some w') => w :: trace n w'
        | _ => [w]
      else [w] := by
  rw [trace]

theorem trace_cases (w : World) :
    (∀ n, trace (n + 1) w = [w]) ∨
    ∃ w', decodeBody w = .ok (some w') ∧ ∀ n, trace (n + 1) w = w :: trace n w' := by
  by_cases hlt : w.PC < w.mem_size
  · cases hd : decodeBody w with
    | error f => exact Or.inl (fun n => by rw [trace_succ, if_pos hlt, hd])
    | ok o =>
      cases o with
      | none => exact Or.inl (fun n => by rw [trace_succ, if_pos hlt, hd])
      | some w' => exact Or.inr ⟨w', rfl, fun n => by rw [trace_succ, if_pos hlt, hd]⟩
  · exact Or.inl (fun n => by rw [trace_succ, if_neg hlt])

theorem step_keeps_CR_zero (w w' : World) (hCR : w.CR = 0)
    (hscr : w.mem[w.PC]? ≠ some 0x8B) (h : decodeBody w = .ok (some w')) : w'.CR = 0 := by
  cases hop : w.mem[w.PC]? with
  | none => simp [decodeBody, World.readMem, hop, bind, Except.bind] at h
  | some b =>
    have hb : b ≠ 0x8B := fun e => hscr (by rw [hop, e])
    obtain ⟨m, hm⟩ := (decodeBody_frame w w' b hop h).1 hb
    rw [hm, hCR, Nat.zero_and]

theorem branchTest_of_CR_zero (w : World) (hCR : w.CR = 0) (v : Nat) :
    branchTest w v = false := by
  rw [Bool.eq_false_iff]
  intro h
  have := (branchTest_iff w v).1 h
  omega

/-! ## Instructions that touch memory -/

theorem writeMem_len (w w' : World) (a b : Nat) (h : w.writeMem a b = .ok w') :
    w'.mem.length = w.mem.length := by
  unfold World.writeMem at h
  split at h
  · cases h; exact List.length_set _ _ _
  · cases h

theorem foldlM_len (f : World → Nat → Except Fault World)
    (hf : ∀ w i w', f w i = .ok w' → w'.mem.length = w.mem.length)
    (l : List Nat) (w w' : World) (h : l.foldlM f w = .ok w') :
    w'.mem.length = w.mem.length := by
  induction l generalizing w with
  | nil =>
    simp only [List.foldlM, pure, Except.pure] at h
    cases h; rfl
  | cons j l ih =>
    rw [List.foldlM_cons] at h
    cases hj : f w j with
    | error e => rw [hj] at h; cases h
    | ok w1 =>
      rw [hj] at h
      exact (ih w1 h).trans (hf w j w1 hj)

theorem setAddress_len (w w' : World) (a v : Nat) (h : w.setAddress a v = .ok w') :
    w'.mem.length = w.mem.length :=
  foldlM_len _ (fun w _ w' hw => writeMem_len w w' _ _ hw) _ w w' h

theorem writeMem_ok (w : World) (a b : Nat) (h : a < w.mem.length) :
    w.writeMem a b = .ok { w with mem := w.mem.set a b } := by
  simp [World.writeMem, h]

theorem foldlM_ok (f : World → Nat → Except Fault World) (Inv : World → Prop) (l : List Nat)
    (hf : ∀ w i, i ∈ l → Inv w → ∃ w', f w i = .ok w' ∧ Inv w') (w : World) (hw : Inv w) :
    ∃ w', l.foldlM f w = .ok w' ∧ Inv w' := by
  induction l generalizing w with
  | nil => exact ⟨w, rfl, hw⟩
  | cons j l ih =>
    obtain ⟨w1, h1, i1⟩ := hf w j (List.mem_cons_self _ _) hw
    obtain ⟨w2, h2, i2⟩ := ih (fun u i hi hu => hf u i (List.mem_cons_of_mem _ hi) hu) w1 i1
    refine ⟨w2, ?_, i2⟩
    rw [List.foldlM_cons, h1]
    exact h2

theorem setAddress_ok (w : World) (a v : Nat) (h : a + 8 < w.mem.length)
    (hs : w.mem.length < 2 ^ 64) :
    ∃ w', w.setAddress a v = .ok w' ∧ w'.mem.length = w.mem.length := by
  unfold World.setAddress
  apply foldlM_ok _ (fun u => u.mem.length = w.mem.length) _ _ w rfl
  intro u i hi hu
  have hi8 : i < 8 := List.mem_range.1 hi
  have hm : (a + 8 - i) % WORD = a + 8 - i :=
    Nat.mod_eq_of_lt (by simp only [WORD]; omega)
  rw [hm]
  exact ⟨_, writeMem_ok u _ _ (by omega), by simp [hu]⟩

theorem push_ok (w : World) (v : Nat) (h : (w.SP + WORD - 8) % WORD + 8 < w.mem.length)
    (hs : w.mem.length < 2 ^ 64) : ∃ w', w.push v = .ok w' := by
  unfold World.push
  obtain ⟨w', hw', _⟩ := setAddress_ok { w with SP := (w.SP + WORD - 8) % WORD }
    ((w.SP + WORD - 8) % WORD) v h hs
  exact ⟨w', hw'⟩

theorem pop_ok (w : World) (h : w.SP + 8 ≤ w.mem.length) (hs : w.mem.length < 2 ^ 64) :
    ∃ p, w.pop = .ok p := by
  unfold World.pop
  obtain ⟨x, hx⟩ := getAddress_ok w w.SP h hs
  rw [hx]
  exact ⟨_, rfl⟩

theorem decodeTwo_total_mem (w : World) (b : Nat) (hr : (w.PC + 1) % WORD < w.mem.length)
    (hs : w.mem.length < 2 ^ 64)
    (hb : b = 0x81 ∨ b = 0x87 ∨ b = 0x88)
    (hint : b = 0x81 → w.mem.getD ((w.PC + 1) % WORD) 0 = 1 ∧ w.registers 0 = 1)
    (hpus : b = 0x87 → (w.SP + WORD - 8) % WORD + 8 < w.mem.length)
    (hpop : b = 0x88 → w.SP + 8 ≤ w.mem.length) :
    ∃ w', decodeTwo w b = .ok w' := by
  rw [List.getD_eq_getElem _ _ hr] at hint
  unfold decodeTwo
  rw [readMem_of_lt w _ hr]
  rcases hb with rfl | rfl | rfl
  · obtain ⟨h1, h2⟩ := hint rfl
    simp only [bind, Except.bind, h1, runInterrupt, if_true, h2]
    exact ⟨_, rfl⟩
  · obtain ⟨w', hw'⟩ := push_ok { w with PC := (w.PC + 2) % WORD }
      (w.registers w.mem[(w.PC + 1) % WORD]) (hpus rfl) hs
    exact ⟨w', hw'⟩
  · obtain ⟨p, hp⟩ := pop_ok { w with PC := (w.PC + 2) % WORD } (hpop rfl) hs
    simp only [bind, Except.bind, hp]
    exact ⟨_, rfl⟩

theorem decodeThree_total_mem (w : World) (b : Nat)
    (hr1 : (w.PC + 1) % WORD < w.mem.length) (hr2 : (w.PC + 2) % WORD < w.mem.length)
    (hb : b = 0x02 ∨ b = 0x03 ∨ b = 0x0E)
    (hls : b = 0x02 ∨ b = 0x03 →
      w.registers (w.mem.getD ((w.PC + 2) % WORD) 0) < w.mem.length)
    (hbas : b = 0x0E → ∀ v, branchTest w v = false) :
    ∃ w', decodeThree w b = .ok w' := by
  rw [List.getD_eq_getElem _ _ hr2] at hls
  unfold decodeThree
  rw [readMem_of_lt w _ hr1, readMem_of_lt w _ hr2]
  rcases hb with rfl | rfl | rfl
  · have h := hls (Or.inl rfl)
    simp only [bind, Except.bind]
    rw [readMem_of_lt { w with PC := (w.PC + 3) % WORD } _ h]
    exact ⟨_, rfl⟩
  · have h := hls (Or.inr rfl)
    simp only [bind, Except.bind]
    exact ⟨_, writeMem_ok { w with PC := (w.PC + 3) % WORD } _ _ h⟩
  · simp only [bind, Except.bind, branchTest_PC, hbas rfl]
    exact ⟨_, rfl⟩

theorem decodeFour_total_mem (w : World) (b : Nat)
    (hr1 : (w.PC + 1) % WORD < w.mem.length) (hr2 : (w.PC + 2) % WORD < w.mem.length)
    (hr3 : (w.PC + 3) % WORD < w.mem.length) (hs : w.mem.length < 2 ^ 64)
    (hb : b = 0xC4 ∨ b = 0xC5 ∨ b = 0xC6 ∨ b = 0xC7)
    (hlsm : b = 0xC4 → w.registers (w.mem.getD ((w.PC + 3) % WORD) 0) + 8 ≤ w.mem.length)
    (hstm : b = 0xC5 ∨ b = 0xC7 →
      w.registers (w.mem.getD ((w.PC + 3) % WORD) 0) + 8 < w.mem.length)
    (hlum : b = 0xC6 →
      ((w.registers (w.mem.getD ((w.PC + 2) % WORD) 0)
          &&& bitNot (w.registers (w.mem.getD ((w.PC + 1) % WORD) 0)))
        &&& w.registers (w.mem.getD ((w.PC + 1) % WORD) 0)) + 8 ≤ w.mem.length) :
    ∃ w', decodeFour w b = .ok w' := by
  rw [List.getD_eq_getElem _ _ hr3] at hlsm hstm
  rw [List.getD_eq_getElem _ _ hr2, List.getD_eq_getElem _ _ hr1] at hlum
  unfold decodeFour
  rw [readMem_of_lt w _ hr1, readMem_of_lt w _ hr2, readMem_of_lt w _ hr3]
  rcases hb with rfl | rfl | rfl | rfl
  · obtain ⟨x, hx⟩ := getAddress_ok { w with PC := (w.PC + 4) % WORD } _ (hlsm rfl) hs
    exact ⟨_, lsm_loop _ x _ _ hx⟩
  · obtain ⟨w', hw', _⟩ := foldlM_ok
      (fun u i => u.setAddress (w.registers w.mem[(w.PC + 3) % WORD]) (u.registers i))
      (fun u => u.mem.length = w.mem.length) (regRange w.mem[(w.PC + 1) % WORD]
        w.mem[(w.PC + 2) % WORD])
      (fun u i _ hu => by
        obtain ⟨u', h1, h2⟩ := setAddress_ok u (w.registers w.mem[(w.PC + 3) % WORD])
          (u.registers i) (by rw [hu]; exact hstm (Or.inl rfl)) (by rw [hu]; exact hs)
        exact ⟨u', h1, h2.trans hu⟩)
      { w with PC := (w.PC + 4) % WORD } rfl
    exact ⟨w', hw'⟩
  · obtain ⟨x, hx⟩ := getAddress_ok { w with PC := (w.PC + 4) % WORD } _ (hlum rfl) hs
    simp only [bind, Except.bind, hx]
    exact ⟨_, rfl⟩
  · have h := hstm (Or.inr rfl)
    obtain ⟨x, hx⟩ := getAddress_ok { w with PC := (w.PC + 4) % WORD }
      (w.registers w.mem[(w.PC + 3) % WORD]) (by show _ ≤ w.mem.length; omega) hs
    obtain ⟨w', hw', _⟩ := setAddress_ok { w with PC := (w.PC + 4) % WORD }
      (w.registers w.mem[(w.PC + 3) % WORD])
      ((w.registers w.mem[(w.PC + 2) % WORD] &&& bitNot (w.registers w.mem[(w.PC + 1) % WORD]))
        ||| ((w.registers w.mem[(w.PC + 2) % WORD]
          &&& bitNot (w.registers w.mem[(w.PC + 1) % WORD]))
          &&& w.registers w.mem[(w.PC + 1) % WORD])) h hs
    simp only [bind, Except.bind, hx]
    exact ⟨w', hw'⟩

theorem memory_step (w : World) (b : Nat) (hsize : w.mem.length < 2 ^ 64)
    (hop : w.mem[w.PC]? = some b)
    (hb : b = 0x81 ∨ b = 0x87 ∨ b = 0x88 ∨ b = 0x02 ∨ b = 0x03 ∨ b = 0x0E ∨ b = 0xC4 ∨
      b = 0xC5 ∨ b = 0xC6 ∨ b = 0xC7)
    (hlen : w.PC + width b ≤ w.mem.length)
    (hint : b = 0x81 → w.mem[w.PC + 1]? = some 1)
    (hbr : b = 0x0E → ∀ v, branchTest w v = false)
    (hadm : admissible w b) :
    ∃ w', decodeBody w = .ok (some w') := by
  have hm : ∀ k, k ≤ width b → (w.PC + k) % WORD = w.PC + k := fun k hk =>
    Nat.mod_eq_of_lt (by simp only [WORD]; omega)
  have hlt : ∀ k, k < width b → (w.PC + k) % WORD < w.mem.length := fun k hk => by
    rw [hm k (by omega)]; omega
  obtain ⟨a1, a2, a3, a4, a5, a6, a7, a8, a9⟩ := hadm
  unfold World.operand at a4 a5 a6 a7 a8 a9
  rcases hb with hb | hb | hb | hb | hb | hb | hb | hb | hb | hb
  all_goals first
    | (obtain ⟨w', hw⟩ := decodeTwo_total_mem w b (hlt 1 (by rw [hb]; decide)) hsize
         (by simp [hb])
         (fun e => by
           rw [hm 1 (by rw [hb]; decide)]
           have h1 := hint e
           rw [List.getD_eq_getElem?_getD, h1]
           exact ⟨rfl, a1 e⟩)
         a2 a3
       exact ⟨w', by
        rw [decodeBody_dispatch w b hop (by rw [hb]; decide), if_neg (by rw [hb]; decide),
          if_pos (by rw [hb]; decide), hw]
        rfl⟩)
    | (obtain ⟨w', hw⟩ := decodeThree_total_mem w b (hlt 1 (by rw [hb]; decide))
         (hlt 2 (by rw [hb]; decide)) (by simp [hb])
         (by rw [hm 2 (by rw [hb]; decide)]; exact a4) hbr
       exact ⟨w', by
        rw [decodeBody_dispatch w b hop (by rw [hb]; decide), if_neg (by rw [hb]; decide),
          if_neg (by rw [hb]; decide), if_neg (by rw [hb]; decide),
          if_neg (by rw [hb]; decide), hw]
        rfl⟩)
    | (obtain ⟨w', hw⟩ := decodeFour_total_mem w b (hlt 1 (by rw [hb]; decide))
         (hlt 2 (by rw [hb]; decide)) (hlt 3 (by rw [hb]; decide)) hsize (by simp [hb])
         (by rw [hm 3 (by rw [hb]; decide)]; exact a7)
         (by rw [hm 3 (by rw [hb]; decide)]; exact a8)
         (by rw [hm 2 (by rw [hb]; decide), hm 1 (by rw [hb]; decide)]; exact a9)
       exact ⟨w', by
        rw [decodeBody_dispatch w b hop (by rw [hb]; decide), if_neg (by rw [hb]; decide),
          if_neg (by rw [hb]; decide), if_pos (by rw [hb]; decide), hw]
        rfl⟩)

/-- Every mapped opcode that does not transfer control, with its bytes inside
memory and under the conditions of `admissible`, is executed to the end and
leaves `PC` moved forward by the width of its class. -/
theorem nonTransfer_step (w : World) (b : Nat) (hsize : w.mem.length < 2 ^ 64)
    (hop : w.mem[w.PC]? = some b) (hmapped : b ∈ opcodes)
    (hlen : w.PC + width b ≤ w.mem.length) (hret : b ≠ 0xF2)
    (hint : b = 0x81 → w.mem[w.PC + 1]? = some 1)
    (hbr : b = 0x0D ∨ b = 0x0E ∨ b = 0xC3 → ∀ v, branchTest w v = false)
    (hadm : admissible w b) :
    ∃ w', decodeBody w = .ok (some w') ∧ w'.PC = w.PC + width b := by
  have hm : ∀ k, k ≤ width b → (w.PC + k) % WORD = w.PC + k := fun k hk =>
    Nat.mod_eq_of_lt (by simp only [WORD]; omega)
  have hpc : ∀ w', decodeBody w = .ok (some w') → w'.PC = w.PC + width b := fun w' h => by
    have h2 := (decodeBody_frame w w' b hop h).2 hret
      (fun e => by
        have hw2 : width b = 2 := by rw [e]; decide
        rw [hm 1 (by omega)]
        exact hint e)
      hbr
    rw [h2, hm _ (le_refl _)]
  have hcls := (by decide : ∀ x ∈ opcodes, x ∈ registerOnly ∨ x = 0xF2 ∨
    (x = 0x81 ∨ x = 0x87 ∨ x = 0x88 ∨ x = 0x02 ∨ x = 0x03 ∨ x = 0x0E ∨ x = 0xC4 ∨
      x = 0xC5 ∨ x = 0xC6 ∨ x = 0xC7)) b hmapped
  rcases hcls with h | h | h
  · obtain ⟨w', hw'⟩ := registerOnly_step w b hsize hop h hlen hadm.2.2.2.2.2.1 hadm.2.2.2.2.1
    exact ⟨w', hw', hpc w' hw'⟩
  · exact absurd h hret
  · obtain ⟨w', hw'⟩ := memory_step w b hsize hop h hlen hint
      (fun e => hbr (Or.inr (Or.inl e))) hadm
    exact ⟨w', hw', hpc w' hw'⟩

/-! ## The size of memory -/

theorem push_len (w w' : World) (v : Nat) (h : w.push v = .ok w') :
    w'.mem.length = w.mem.length := by
  unfold World.push at h
  exact setAddress_len { w with SP := (w.SP + WORD - 8) % WORD } w' _ v h

theorem pop_len (w w' : World) (r : Nat) (h : w.pop = .ok (r, w')) :
    w'.mem.length = w.mem.length := by
  unfold World.pop at h
  cases hg : w.getAddress w.SP with
  | error e => simp [hg, bind, Except.bind] at h
  | ok x =>
    simp only [hg, bind, Except.bind, pure, Except.pure, Except.ok.injEq, Prod.mk.injEq] at h
    obtain ⟨_, rfl⟩ := h
    rfl

theorem runInterrupt_len (w w' : World) (n : Nat) (h : runInterrupt w n = .ok w') :
    w'.mem.length = w.mem.length := by
  unfold runInterrupt at h
  split at h
  · split at h
    · simp only [pure, Except.pure, Except.ok.injEq] at h
      subst h
      rfl
    · cases h
  · cases hp : w.push w.PC with
    | error e => simp [hp, bind, Except.bind] at h
    | ok w1 =>
      cases hg : w1.getInterrupt n with
      | error e => simp [hp, hg, bind, Except.bind] at h
      | ok pc =>
        simp only [hp, hg, bind, Except.bind, pure, Except.pure, Except.ok.injEq] at h
        subst h
        exact push_len w w1 _ hp

theorem decodeOne_len (w w' : World) (b : Nat) (h : decodeOne w b = .ok w') :
    w'.mem.length = w.mem.length := by
  unfold decodeOne at h
  split at h
  · simp only [pure, Except.pure, Except.ok.injEq] at h
    subst h; rfl
  · cases hp : World.pop { w.print ("OP " ++ toString 242 ++ "\n") with
        PC := ((w.print ("OP " ++ toString 242 ++ "\n")).PC + 1) % WORD } with
    | error e => simp [hp, bind, Except.bind] at h
    | ok p =>
      obtain ⟨r, w1⟩ := p
      simp only [hp, bind, Except.bind, pure, Except.pure, Except.ok.injEq] at h
      subst h
      have hl := pop_len _ w1 r hp
      exact hl
  · simp only [pure, Except.pure, Except.ok.injEq] at h
    subst h; rfl
  · simp only [pure, Except.pure, Except.ok.injEq] at h
    subst h; rfl
  · cases h

theorem decodeTwo_len (w w' : World) (b : Nat) (h : decodeTwo w b = .ok w') :
    w'.mem.length = w.mem.length := by
  unfold decodeTwo at h
  cases hr : w.readMem ((w.PC + 1) % WORD) with
  | error e => simp [hr, bind, Except.bind] at h
  | ok reg1 =>
    simp only [hr, bind, Except.bind] at h
    split at h
    · have hl := runInterrupt_len _ w' reg1 h
      exact hl
    all_goals first
      | (simp only [pure, Except.pure, Except.ok.injEq] at h
         subst h
         rfl)
      | skip
    · have hl := push_len _ w' _ h
      exact hl
    · cases hp : World.pop { w with PC := (w.PC + 2) % WORD } with
      | error e => simp [hp] at h
      | ok p =>
        obtain ⟨r, w1⟩ := p
        simp only [hp, pure, Except.pure, Except.ok.injEq] at h
        subst h
        have hl := pop_len _ w1 r hp
        exact hl
    · cases h

theorem decodeThree_len (w w' : World) (b : Nat) (h : decodeThree w b = .ok w') :
    w'.mem.length = w.mem.length := by
  unfold decodeThree at h
  cases hr1 : w.readMem ((w.PC + 1) % WORD) with
  | error e => simp [hr1, bind, Except.bind] at h
  | ok reg1 =>
  cases hr2 : w.readMem ((w.PC + 2) % WORD) with
  | error e => simp [hr1, hr2, bind, Except.bind] at h
  | ok reg2 =>
    simp only [hr1, hr2, bind, Except.bind] at h
    split at h
    all_goals first
      | (simp only [pure, Except.pure, Except.ok.injEq] at h
         subst h
         rfl)
      | skip
    · -- LS
      cases hb : World.readMem { w with PC := (w.PC + 3) % WORD } (w.registers reg2) with
      | error e => simp [hb] at h
      | ok x =>
        simp only [hb, pure, Except.pure, Except.ok.injEq] at h
        subst h
        rfl
    · -- ST
      have hl := writeMem_len _ w' _ _ h
      exact hl
    · -- B
      split at h <;>
        (simp only [pure, Except.pure, Except.ok.injEq] at h
         subst h
         rfl)
    · -- BAS
      split at h
      · cases hp : World.push { w with PC := (w.PC + 3) % WORD } ((w.PC + 3) % WORD) with
        | error e => simp [hp] at h
        | ok w1 =>
          simp only [hp, pure, Except.pure, Except.ok.injEq] at h
          subst h
          have hl := push_len _ w1 _ hp
          exact hl
      · simp only [pure, Except.pure, Except.ok.injEq] at h
        subst h
        rfl
    · -- CP
      repeat' split at h
      all_goals
        (simp only [pure, Except.pure, Except.ok.injEq] at h
         subst h
         rfl)
    · -- CPU
      repeat' split at h
      all_goals
        (simp only [pure, Except.pure, Except.ok.injEq] at h
         subst h
         rfl)
    · cases h

theorem decodeFour_len (w w' : World) (b : Nat) (h : decodeFour w b = .ok w') :
    w'.mem.length = w.mem.length := by
  unfold decodeFour at h
  cases hr1 : w.readMem ((w.PC + 1) % WORD) with
  | error e => simp [hr1, bind, Except.bind] at h
  | ok reg1 =>
  cases hr2 : w.readMem ((w.PC + 2) % WORD) with
  | error e => simp [hr1, hr2, bind, Except.bind] at h
  | ok reg2 =>
  cases hr3 : w.readMem ((w.PC + 3) % WORD) with
  | error e => simp [hr1, hr2, hr3, bind, Except.bind] at h
  | ok reg3 =>
    simp only [hr1, hr2, hr3] at h
    change (match b with
      | 0xC1 => _
      | 0xC2 => _
      | 0xC3 => _
      | 0xC4 => _
      | 0xC5 => _
      | 0xC6 => _
      | 0xC7 => _
      | _ => _) = _ at h
    split at h
    · -- D
      split at h
      · cases h
      · split at h
        · cases h
        · simp only [pure, Except.pure, Except.ok.injEq] at h
          subst h; rfl
    · -- DU
      split at h
      · cases h
      · simp only [pure, Except.pure, Except.ok.injEq] at h
        subst h; rfl
    · -- BAL
      split at h <;>
        (simp only [pure, Except.pure, Except.ok.injEq] at h
         subst h
         rfl)
    · -- LSM
      have hl := foldlM_len _ (fun u i u' hu => by
        cases hg : u.getAddress (World.registers { w with PC := (w.PC + 4) % WORD } reg3) with
        | error e => simp [hg, bind, Except.bind] at hu
        | ok x =>
          simp only [hg, bind, Except.bind, pure, Except.pure, Except.ok.injEq] at hu
          subst hu
          rfl) _ _ w' h
      exact hl
    · -- STM
      have hl := foldlM_len _ (fun u _ u' hu => setAddress_len u u' _ _ hu) _ _ w' h
      exact hl
    · -- LUM
      simp only [bind, Except.bind] at h
      split at h
      · cases h
      · simp only [pure, Except.pure, Except.ok.injEq] at h
        subst h; rfl
    · -- SUM
      simp only [bind, Except.bind] at h
      split at h
      · cases h
      · have hl := setAddress_len _ w' _ _ h
        exact hl
    · cases h

theorem decodeImm_len (w w' : World) (b : Nat) (h : decodeImm w b = .ok w') :
    w'.mem.length = w.mem.length := by
  unfold decodeImm at h
  simp only [bind, Except.bind] at h
  split at h
  · cases h
  · split at h
    · cases h
    · split at h
      · simp only [pure, Except.pure, Except.ok.injEq] at h
        subst h; rfl
      · cases h

/-- A step leaves the size of memory as it is. -/
theorem decodeBody_len (w w' : World) (h : decodeBody w = .ok (some w')) :
    w'.mem.length = w.mem.length := by
  cases hop : w.mem[w.PC]? with
  | none => simp [decodeBody, World.readMem, hop, bind, Except.bind] at h
  | some b =>
    have hnz : b ≠ 0 := by
      intro h0
      subst h0
      simp [decodeBody, World.readMem, hop, bind, Except.bind, pure, Except.pure] at h
    rw [decodeBody_dispatch w b hop hnz] at h
    split_ifs at h
    · exact decodeOne_len w w' b (ok_of_map_some _ _ h)
    · exact decodeTwo_len w w' b (ok_of_map_some _ _ h)
    · exact decodeFour_len w w' b (ok_of_map_some _ _ h)
    · exact decodeImm_len w w' b (ok_of_map_some _ _ h)
    · exact decodeThree_len w w' b (ok_of_map_some _ _ h)

/-! ## Width of a completed instruction -/

theorem trace_len (n : Nat) (w : World) : ∀ s ∈ trace n w, s.mem.length = w.mem.length := by
  induction n generalizing w with
  | zero =>
    intro s hs
    simp only [trace, List.mem_singleton] at hs
    rw [hs]
  | succ n ih =>
    intro s hs
    rcases trace_cases w with h | ⟨w', hw', h⟩
    · rw [h n, List.mem_singleton] at hs
      rw [hs]
    · rw [h n, List.mem_cons] at hs
      rcases hs with hs | hs
      · rw [hs]
      · exact (ih w' s hs).trans (decodeBody_len w w' hw')

theorem branch_admissible (w : World) (b : Nat) (hb : b = 0x0D ∨ b = 0x0E ∨ b = 0xC3) :
    admissible w b := by
  unfold admissible
  rcases hb with rfl | rfl | rfl <;> simp

theorem branch_mapped (b : Nat) (hb : b = 0x0D ∨ b = 0x0E ∨ b = 0xC3) :
    b ∈ opcodes ∧ b ≠ 0xF2 ∧ b ≠ 0x81 := by
  rcases hb with rfl | rfl | rfl <;> decide

/-- Claim C19: in a run that starts with `CR = 0` and in which none of the
first `n + 1` instructions executed is `SCR`, `CR` is 0 in the initial state
and after each of these instructions, and in each of these states a `B`,
`BAS` or `BAL` whose bytes lie inside memory is not taken, whatever the
registers hold: the step returns a state whose `PC` is the address of the
next instruction. -/
theorem CR_stays_zero (n : Nat) (w : World) (hsize : w.mem.length < 2 ^ 64)
    (hCR : w.CR = 0) (hscr : ∀ s ∈ trace n w, s.mem[s.PC]? ≠ some 0x8B) :
    ∀ s ∈ trace (n + 1) w, s.CR = 0 ∧
      ∀ b, s.mem[s.PC]? = some b → b = 0x0D ∨ b = 0x0E ∨ b = 0xC3 →
        s.PC + width b ≤ s.mem.length →
        ∃ s', decodeBody s = .ok (some s') ∧ s'.PC = s.PC + width b := by
  have hzero : ∀ s ∈ trace (n + 1) w, s.CR = 0 := by
    induction n generalizing w with
    | zero =>
      have hw : w.mem[w.PC]? ≠ some 0x8B := hscr w (by simp [trace])
      intro s hs
      rcases trace_cases w with h | ⟨w', hw', h⟩
      · rw [h 0, List.mem_singleton] at hs
        rw [hs]; exact hCR
      · rw [h 0] at hs
        simp only [trace, List.mem_cons, List.mem_singleton, List.not_mem_nil, or_false] at hs
        rcases hs with hs | hs
        · rw [hs]; exact hCR
        · rw [hs]; exact step_keeps_CR_zero w w' hCR hw hw'
    | succ n ih =>
      intro s hs
      rcases trace_cases w with h | ⟨w', hw', h⟩
      · rw [h (n + 1), List.mem_singleton] at hs
        rw [hs]; exact hCR
      · have hw : w.mem[w.PC]? ≠ some 0x8B := hscr w (by rw [h n]; exact List.mem_cons_self _ _)
        have hCR' := step_keeps_CR_zero w w' hCR hw hw'
        rw [h (n + 1), List.mem_cons] at hs
        rcases hs with hs | hs
        · rw [hs]; exact hCR
        · exact ih w' (by rw [decodeBody_len w w' hw']; exact hsize) hCR'
            (fun s hs' => hscr s (by rw [h n]; exact List.mem_cons_of_mem _ hs')) s hs
  intro s hs
  refine ⟨hzero s hs, fun b hop hb hlen => ?_⟩
  have hs64 : s.mem.length < 2 ^ 64 := by rw [trace_len (n + 1) w s hs]; exact hsize
  obtain ⟨h1, h2, h3⟩ := branch_mapped b hb
  exact nonTransfer_step s b hs64 hop h1 hlen h2 (fun e => absurd e h3)
    (fun _ => branchTest_of_CR_zero s (hzero s hs)) (branch_admissible s b hb)

/-- Claim C19 on the program `CP 1 2; B 1 2; NOP` started with `CR = 0`: the
run visits the addresses 0, 3, 6 and 7, `CR` is 0 in each of these states,
and the `B` at address 3, whose target register holds 2, is not taken: its
step returns a state with `PC = 6`. -/
theorem CR_stays_zero_witness :
    (trace (2 + 1) crDemo).map World.PC = [0, 3, 6, 7] ∧
    (trace (2 + 1) crDemo).all (fun s => decide (s.CR = 0)) = true ∧
    ∃ s', decodeBody ((trace (2 + 1) crDemo).getD 1 crDemo) = .ok (some s') ∧
      s'.PC = 3 + width 0x0D :=
  have h := CR_stays_zero 2 crDemo (by decide) (by decide) (by decide)
  ⟨by decide,
   List.all_eq_true.2 (fun s hs => by simp [(h s hs).1]),
   (h ((trace (2 + 1) crDemo).getD 1 crDemo)
      (by rw [List.getD_eq_getElem _ _ (by decide)]; exact List.getElem_mem _)).2
      0x0D (by decide) (by decide) (by decide)⟩

end Emu
